import Mathlib

/-!
Verification of the encrypted key-value envelope store
(react-encrypted-storage-hook): a shallow embedding of
src/components/utils/crypto.js and the second (authoritative) copy of
src/components/useEncryptedStorage.js, together with proofs about the
specified properties.

Modelling conventions:
* JavaScript strings are lists of UTF-16 code units (`List Nat`, each < 2^16).
* Thrown exceptions are `Option`/explicit outcome fields (`none` = throw).
* The platform primitives `btoa`/`atob` are modelled as real base64
  encoding/decoding over code-unit lists (btoa fails on units > 255, as in
  browsers); `atob` is modelled on the canonical padded alphabet only.
* `TextEncoder`/`TextDecoder` (UTF-8 codec) are modelled as the identity on
  code-unit lists (faithful for well-formed strings).
* `window.crypto.subtle` AES-GCM with a PBKDF2-derived key is modelled as an
  idealized authenticated cipher: the derived key is represented by the
  secret itself (derivation is deterministic), sealing is an injective
  encoding of (key, iv, message) and opening verifies key and iv.
* `JSON.stringify`/`JSON.parse` are modelled by an executable serializer and
  a recursive-descent parser for the canonical (whitespace-free) grammar that
  the serializer emits; `JSON.parse` of malformed input is `none`.
-/

namespace EncStore

/-! ### Base64: the platform `btoa` / `atob` pair -/

/-- Code point of the base64 alphabet character for a sextet value. -/
def b64Char (n : Nat) : Nat :=
  if n < 26 then 65 + n
  else if n < 52 then 71 + n
  else if n < 62 then n - 4
  else if n = 62 then 43
  else 47

/-- Sextet value of a base64 alphabet character code. -/
def b64Val (c : Nat) : Nat :=
  if 65 ≤ c ∧ c ≤ 90 then c - 65
  else if 97 ≤ c ∧ c ≤ 122 then c - 71
  else if 48 ≤ c ∧ c ≤ 57 then c + 4
  else if c = 43 then 62
  else 63

theorem b64Val_b64Char {n : Nat} (h : n < 64) : b64Val (b64Char n) = n := by
  have hfin : ∀ m : Fin 64, b64Val (b64Char m.val) = m.val := by decide
  exact hfin ⟨n, h⟩

theorem b64Char_ne_61 {n : Nat} (h : n < 64) : b64Char n ≠ 61 := by
  have hfin : ∀ m : Fin 64, b64Char m.val ≠ 61 := by decide
  exact hfin ⟨n, h⟩

theorem b64Char_plain {n : Nat} (h : n < 64) : b64Char n ≠ 34 ∧ b64Char n ≠ 92 := by
  have hfin : ∀ m : Fin 64, b64Char m.val ≠ 34 ∧ b64Char m.val ≠ 92 := by decide
  exact hfin ⟨n, h⟩

/-- Base64 encoding of a byte list, with padding (the output of `btoa`). -/
def b64encode : List Nat → List Nat
  | b0 :: b1 :: b2 :: rest =>
    b64Char (b0 / 4) :: b64Char (b0 % 4 * 16 + b1 / 16) ::
      b64Char (b1 % 16 * 4 + b2 / 64) :: b64Char (b2 % 64) :: b64encode rest
  | [b0, b1] =>
    [b64Char (b0 / 4), b64Char (b0 % 4 * 16 + b1 / 16), b64Char (b1 % 16 * 4), 61]
  | [b0] => [b64Char (b0 / 4), b64Char (b0 % 4 * 16), 61, 61]
  | [] => []

/-- Base64 decoding of a padded base64 string (the behavior of `atob` on
canonical input; `none` models the InvalidCharacterError throw on input whose
length is not a multiple of four or whose padding is misplaced). -/
def b64decode : List Nat → Option (List Nat)
  | [] => some []
  | c0 :: c1 :: c2 :: c3 :: rest =>
    if c2 = 61 then
      if c3 = 61 ∧ rest = [] then some [b64Val c0 * 4 + b64Val c1 / 16] else none
    else if c3 = 61 then
      if rest = [] then
        some [b64Val c0 * 4 + b64Val c1 / 16, b64Val c1 % 16 * 16 + b64Val c2 / 4]
      else none
    else
      (b64decode rest).map fun bs =>
        (b64Val c0 * 4 + b64Val c1 / 16) ::
          (b64Val c1 % 16 * 16 + b64Val c2 / 4) ::
          (b64Val c2 % 4 * 64 + b64Val c3) :: bs
  | _ => none

theorem b64decode_b64encode :
    ∀ l : List Nat, (∀ b ∈ l, b < 256) → b64decode (b64encode l) = some l
  | [], _ => rfl
  | [b0, b1, b2], h => by
    have hb0 : b0 < 256 := h b0 (by simp)
    have hb1 : b1 < 256 := h b1 (by simp)
    have hb2 : b2 < 256 := h b2 (by simp)
    have h1 : b0 / 4 < 64 := by omega
    have h2 : b0 % 4 * 16 + b1 / 16 < 64 := by omega
    have h3 : b1 % 16 * 4 + b2 / 64 < 64 := by omega
    have h4 : b2 % 64 < 64 := by omega
    simp [b64encode, b64decode, b64Char_ne_61 h3, b64Char_ne_61 h4,
      b64Val_b64Char h1, b64Val_b64Char h2, b64Val_b64Char h3, b64Val_b64Char h4]
    omega
  | [b0], h => by
    have hb0 : b0 < 256 := h b0 (by simp)
    have h1 : b0 / 4 < 64 := by omega
    have h2 : b0 % 4 * 16 < 64 := by omega
    simp [b64encode, b64decode, b64Val_b64Char h1, b64Val_b64Char h2]
    omega
  | [b0, b1], h => by
    have hb0 : b0 < 256 := h b0 (by simp)
    have hb1 : b1 < 256 := h b1 (by simp)
    have h1 : b0 / 4 < 64 := by omega
    have h2 : b0 % 4 * 16 + b1 / 16 < 64 := by omega
    have h3 : b1 % 16 * 4 < 64 := by omega
    simp [b64encode, b64decode, b64Char_ne_61 h3,
      b64Val_b64Char h1, b64Val_b64Char h2, b64Val_b64Char h3]
    omega
  | b0 :: b1 :: b2 :: b3 :: rest, h => by
    have hb0 : b0 < 256 := h b0 (by simp)
    have hb1 : b1 < 256 := h b1 (by simp)
    have hb2 : b2 < 256 := h b2 (by simp)
    have h1 : b0 / 4 < 64 := by omega
    have h2 : b0 % 4 * 16 + b1 / 16 < 64 := by omega
    have h3 : b1 % 16 * 4 + b2 / 64 < 64 := by omega
    have h4 : b2 % 64 < 64 := by omega
    have ih : b64decode (b64encode (b3 :: rest)) = some (b3 :: rest) :=
      b64decode_b64encode (b3 :: rest) (fun b hb => h b (by simp [hb]))
    simp [b64encode, b64decode, b64Char_ne_61 h3, b64Char_ne_61 h4, ih,
      b64Val_b64Char h1, b64Val_b64Char h2, b64Val_b64Char h3, b64Val_b64Char h4]
    omega

theorem b64encode_chars :
    ∀ l : List Nat, (∀ b ∈ l, b < 256) →
      ∀ c ∈ b64encode l, c = 61 ∨ ∃ n, n < 64 ∧ c = b64Char n
  | [], _ => by simp [b64encode]
  | [b0], h => by
    have hb0 : b0 < 256 := h b0 (by simp)
    intro c hc
    simp only [b64encode, List.mem_cons, List.not_mem_nil, or_false] at hc
    rcases hc with rfl | rfl | rfl | rfl
    · exact Or.inr ⟨b0 / 4, by omega, rfl⟩
    · exact Or.inr ⟨b0 % 4 * 16, by omega, rfl⟩
    · exact Or.inl rfl
    · exact Or.inl rfl
  | [b0, b1], h => by
    have hb0 : b0 < 256 := h b0 (by simp)
    have hb1 : b1 < 256 := h b1 (by simp)
    intro c hc
    simp only [b64encode, List.mem_cons, List.not_mem_nil, or_false] at hc
    rcases hc with rfl | rfl | rfl | rfl
    · exact Or.inr ⟨b0 / 4, by omega, rfl⟩
    · exact Or.inr ⟨b0 % 4 * 16 + b1 / 16, by omega, rfl⟩
    · exact Or.inr ⟨b1 % 16 * 4, by omega, rfl⟩
    · exact Or.inl rfl
  | [b0, b1, b2], h => by
    have hb0 : b0 < 256 := h b0 (by simp)
    have hb1 : b1 < 256 := h b1 (by simp)
    have hb2 : b2 < 256 := h b2 (by simp)
    intro c hc
    simp only [b64encode, List.mem_cons, List.not_mem_nil, or_false] at hc
    rcases hc with rfl | rfl | rfl | rfl
    · exact Or.inr ⟨b0 / 4, by omega, rfl⟩
    · exact Or.inr ⟨b0 % 4 * 16 + b1 / 16, by omega, rfl⟩
    · exact Or.inr ⟨b1 % 16 * 4 + b2 / 64, by omega, rfl⟩
    · exact Or.inr ⟨b2 % 64, by omega, rfl⟩
  | b0 :: b1 :: b2 :: b3 :: rest, h => by
    have hb0 : b0 < 256 := h b0 (by simp)
    have hb1 : b1 < 256 := h b1 (by simp)
    have hb2 : b2 < 256 := h b2 (by simp)
    intro c hc
    simp only [b64encode, List.mem_cons] at hc
    rcases hc with rfl | rfl | rfl | rfl | hmem
    · exact Or.inr ⟨b0 / 4, by omega, rfl⟩
    · exact Or.inr ⟨b0 % 4 * 16 + b1 / 16, by omega, rfl⟩
    · exact Or.inr ⟨b1 % 16 * 4 + b2 / 64, by omega, rfl⟩
    · exact Or.inr ⟨b2 % 64, by omega, rfl⟩
    · exact b64encode_chars (b3 :: rest) (fun b hb => h b (by simp [hb])) c hmem

/-- Every character of a base64 encoding is neither a quote nor a backslash,
so the blob can sit inside a JSON string without escaping. -/
theorem b64encode_plain (l : List Nat) (hl : ∀ b ∈ l, b < 256) :
    ∀ c ∈ b64encode l, c ≠ 34 ∧ c ≠ 92 := by
  intro c hc
  rcases b64encode_chars l hl c hc with rfl | ⟨n, hn, rfl⟩
  · exact ⟨by omega, by omega⟩
  · exact b64Char_plain hn

/-- Platform `btoa`: succeeds only when every code unit is a byte. -/
def btoa (l : List Nat) : Option (List Nat) :=
  if l.all (fun b => b < 256) then some (b64encode l) else none

/-- Platform `atob`. -/
def atob (l : List Nat) : Option (List Nat) := b64decode l

theorem atob_btoa {l e : List Nat} (h : btoa l = some e) : atob e = some l := by
  unfold btoa at h
  split at h
  · next hall =>
    cases h
    exact b64decode_b64encode l (by simpa [List.all_eq_true] using hall)
  · cases h

/-! ### Decimal digits, as emitted for JSON numbers -/

/-- Structural digit accumulator: the first argument is fuel (any bound on
the number), so the function is structurally recursive and computable by
reduction. -/
def natDigitsAux (acc : List Nat) : Nat → Nat → List Nat
  | 0, n => (48 + n % 10) :: acc
  | fuel + 1, n =>
    if n < 10 then (48 + n) :: acc else natDigitsAux ((48 + n % 10) :: acc) fuel (n / 10)

/-- Decimal digit characters of a natural number, most significant first. -/
def natDigits (n : Nat) : List Nat := natDigitsAux [] n n

theorem natDigitsAux_acc :
    ∀ (fuel n : Nat) (acc : List Nat), n ≤ fuel →
      natDigitsAux acc fuel n = natDigitsAux [] fuel n ++ acc := by
  intro fuel
  induction fuel with
  | zero =>
    intro n acc h
    simp only [natDigitsAux]
    simp
  | succ fuel ih =>
    intro n acc h
    by_cases hn : n < 10
    · simp only [natDigitsAux, if_pos hn]
      simp
    · simp only [natDigitsAux, if_neg hn]
      rw [ih (n / 10) ((48 + n % 10) :: acc) (by omega),
        ih (n / 10) [48 + n % 10] (by omega)]
      simp

theorem natDigitsAux_fuel :
    ∀ (fuel fuel2 n : Nat), n ≤ fuel → n ≤ fuel2 →
      natDigitsAux [] fuel n = natDigitsAux [] fuel2 n := by
  intro fuel
  induction fuel with
  | zero =>
    intro fuel2 n h h2
    have hn : n = 0 := by omega
    subst hn
    cases fuel2 with
    | zero => rfl
    | succ fuel2 => simp [natDigitsAux]
  | succ fuel ih =>
    intro fuel2 n h h2
    cases fuel2 with
    | zero =>
      have hn : n = 0 := by omega
      subst hn
      simp [natDigitsAux]
    | succ fuel2 =>
      by_cases hn : n < 10
      · simp [natDigitsAux, if_pos hn]
      · simp only [natDigitsAux, if_neg hn]
        rw [natDigitsAux_acc fuel (n / 10) _ (by omega),
          natDigitsAux_acc fuel2 (n / 10) _ (by omega),
          ih fuel2 (n / 10) (by omega) (by omega)]

/-- The defining recurrence of `natDigits`. -/
theorem natDigits_unfold (n : Nat) :
    natDigits n = if n < 10 then [48 + n] else natDigits (n / 10) ++ [48 + n % 10] := by
  unfold natDigits
  by_cases hn : n < 10
  · rw [if_pos hn]
    cases n with
    | zero => rfl
    | succ m => simp [natDigitsAux, if_pos hn]
  · rw [if_neg hn]
    have hshape : natDigitsAux [] n n =
        natDigitsAux [(48 + n % 10)] (n - 1) (n / 10) := by
      cases n with
      | zero => omega
      | succ m => simp [natDigitsAux, if_neg hn]
    rw [hshape, natDigitsAux_acc (n - 1) (n / 10) _ (by omega),
      natDigitsAux_fuel (n - 1) (n / 10) (n / 10) (by omega) (by omega)]

theorem natDigits_are_digits (n : Nat) : ∀ c ∈ natDigits n, 48 ≤ c ∧ c ≤ 57 := by
  induction n using Nat.strong_induction_on with
  | _ n ih =>
    rw [natDigits_unfold]
    split
    · next h => intro c hc; simp at hc; omega
    · next h =>
      intro c hc
      simp only [List.mem_append, List.mem_singleton] at hc
      rcases hc with hc | rfl
      · exact ih (n / 10) (by omega) c hc
      · omega

theorem natDigits_ne_nil (n : Nat) : natDigits n ≠ [] := by
  rw [natDigits_unfold]
  split <;> simp

/-- Character list of a JSON number (`JSON.stringify` on an integer). -/
def intChars (i : Int) : List Nat :=
  if i < 0 then 45 :: natDigits i.natAbs else natDigits i.natAbs

/-- Greedy run of decimal digits, folding into an accumulator: the digit
loop of number parsing. -/
def parseDigitsAux (acc : Nat) : List Nat → Nat × List Nat
  | [] => (acc, [])
  | c :: rest =>
    if 48 ≤ c ∧ c ≤ 57 then parseDigitsAux (acc * 10 + (c - 48)) rest else (acc, c :: rest)

theorem parseDigitsAux_length (acc : Nat) :
    ∀ l : List Nat, (parseDigitsAux acc l).2.length ≤ l.length := by
  intro l
  induction l generalizing acc with
  | nil => simp [parseDigitsAux]
  | cons c rest ih =>
    unfold parseDigitsAux
    split
    · exact Nat.le_trans (ih _) (by simp)
    · simp

/-- Condition that a list does not continue a digit run. -/
def headNotDigit : List Nat → Prop
  | [] => True
  | c :: _ => ¬(48 ≤ c ∧ c ≤ 57)

theorem parseDigitsAux_stop {l : List Nat} (h : headNotDigit l) (acc : Nat) :
    parseDigitsAux acc l = (acc, l) := by
  cases l with
  | nil => rfl
  | cons c rest => unfold parseDigitsAux; rw [if_neg h]

theorem parseDigitsAux_app {ds rest : List Nat} (hds : ∀ c ∈ ds, 48 ≤ c ∧ c ≤ 57)
    (hrest : headNotDigit rest) (acc : Nat) :
    parseDigitsAux acc (ds ++ rest) =
      (ds.foldl (fun a c => a * 10 + (c - 48)) acc, rest) := by
  induction ds generalizing acc with
  | nil => simp [parseDigitsAux_stop hrest]
  | cons d ds ih =>
    have hd := hds d (by simp)
    simp only [List.cons_append, List.foldl_cons]
    unfold parseDigitsAux
    rw [if_pos hd]
    exact ih (fun c hc => hds c (by simp [hc])) _

theorem foldl_natDigits (n : Nat) :
    ∀ acc, (natDigits n).foldl (fun a c => a * 10 + (c - 48)) acc =
      acc * 10 ^ (natDigits n).length + n := by
  induction n using Nat.strong_induction_on with
  | _ n ih =>
    intro acc
    rw [natDigits_unfold]
    split
    · next h => simp
    · next h =>
      rw [List.foldl_append, ih (n / 10) (by omega) acc]
      simp only [List.foldl_cons, List.foldl_nil, List.length_append, List.length_singleton]
      rw [pow_succ]
      have h48 : 48 + n % 10 - 48 = n % 10 := by omega
      rw [h48]
      have hn : 10 * (n / 10) + n % 10 = n := Nat.div_add_mod n 10
      ring_nf
      omega

theorem digitsVal_natDigits (n : Nat) :
    (natDigits n).foldl (fun a c => a * 10 + (c - 48)) 0 = n := by
  rw [foldl_natDigits]; simp

/-! ### JavaScript values and `JSON.stringify` -/

/-- JavaScript values as they flow through the hook: JSON data plus `BigInt`,
the representative non-serializable value (`JSON.stringify` throws on it). -/
inductive JsValue where
  | vNull : JsValue
  | vBool : Bool → JsValue
  | vNum : Int → JsValue
  | vStr : List Nat → JsValue
  | vArr : List JsValue → JsValue
  | vObj : List (List Nat × JsValue) → JsValue
  | vBigInt : Int → JsValue

/-- Escaping of one character inside a JSON string literal (`JSON.stringify`
escapes the quote and the backslash; other characters relevant here are
emitted verbatim). -/
def escChar (c : Nat) : List Nat := if c = 34 ∨ c = 92 then [92, c] else [c]

/-- JSON string literal for a raw string. -/
def strLit (s : List Nat) : List Nat := 34 :: (s.map escChar).flatten ++ [34]

theorem escChar_flatten {s : List Nat} (hs : ∀ c ∈ s, c ≠ 34 ∧ c ≠ 92) :
    (s.map escChar).flatten = s := by
  induction s with
  | nil => simp
  | cons c rest ih =>
    have hc := hs c (by simp)
    simp only [List.map_cons, List.flatten_cons, escChar]
    rw [if_neg (by tauto : ¬(c = 34 ∨ c = 92)), ih fun d hd => hs d (by simp [hd])]
    rfl

theorem strLit_plain {s : List Nat} (hs : ∀ c ∈ s, c ≠ 34 ∧ c ≠ 92) :
    strLit s = 34 :: s ++ [34] := by
  unfold strLit
  rw [escChar_flatten hs]

mutual

/-- The output of `JSON.stringify` (canonical grammar: no whitespace). The
`vBigInt` case is unreachable behind the serializability guard; it is given
an arbitrary value. -/
def jsonStr : JsValue → List Nat
  | .vNull => [110, 117, 108, 108]
  | .vBool true => [116, 114, 117, 101]
  | .vBool false => [102, 97, 108, 115, 101]
  | .vNum n => intChars n
  | .vStr s => strLit s
  | .vArr es => 91 :: jsonStrElems es ++ [93]
  | .vObj fs => 123 :: jsonStrFields fs ++ [125]
  | .vBigInt _ => [48]

/-- Comma-separated serialization of array elements. -/
def jsonStrElems : List JsValue → List Nat
  | [] => []
  | [e] => jsonStr e
  | e :: rest => jsonStr e ++ 44 :: jsonStrElems rest

/-- Comma-separated serialization of object members. -/
def jsonStrFields : List (List Nat × JsValue) → List Nat
  | [] => []
  | [(k, v)] => strLit k ++ 58 :: jsonStr v
  | (k, v) :: rest => strLit k ++ 58 :: jsonStr v ++ 44 :: jsonStrFields rest

end

mutual

/-- Whether a value contains a `BigInt` anywhere, in which case
`JSON.stringify` throws a TypeError. -/
def hasBigInt : JsValue → Bool
  | .vNull => false
  | .vBool _ => false
  | .vNum _ => false
  | .vStr _ => false
  | .vArr es => hasBigIntElems es
  | .vObj fs => hasBigIntFields fs
  | .vBigInt _ => true

def hasBigIntElems : List JsValue → Bool
  | [] => false
  | e :: rest => hasBigInt e || hasBigIntElems rest

def hasBigIntFields : List (List Nat × JsValue) → Bool
  | [] => false
  | (_, v) :: rest => hasBigInt v || hasBigIntFields rest

end

/-- The hook's `isSerializable` check: `JSON.stringify(val)` does not throw. -/
def isSerializable (v : JsValue) : Bool := !hasBigInt v

/-! ### `JSON.parse`: recursive-descent parser for the canonical grammar -/

/-- String-literal body: input after the opening quote; returns the content
and the remainder after the closing quote. Recognizes exactly the escapes
the serializer emits. -/
def parseStrBody : (l : List Nat) → Option (List Nat × { r : List Nat // r.length < l.length })
  | [] => none
  | 34 :: rest => some ([], ⟨rest, by simp⟩)
  | 92 :: 34 :: rest =>
    match parseStrBody rest with
    | some (s, ⟨r, hr⟩) => some (34 :: s, ⟨r, by simp only [List.length_cons]; omega⟩)
    | none => none
  | 92 :: 92 :: rest =>
    match parseStrBody rest with
    | some (s, ⟨r, hr⟩) => some (92 :: s, ⟨r, by simp only [List.length_cons]; omega⟩)
    | none => none
  | 92 :: _ => none
  | c :: rest =>
    match parseStrBody rest with
    | some (s, ⟨r, hr⟩) => some (c :: s, ⟨r, by simp only [List.length_cons]; omega⟩)
    | none => none

/-- Unsigned number token: a greedy digit run starting with a digit. -/
def parseNumNat : List Nat → Option (Nat × List Nat)
  | [] => none
  | c :: rest =>
    if 48 ≤ c ∧ c ≤ 57 then some (parseDigitsAux (c - 48) rest) else none

theorem parseNumNat_length {l : List Nat} {n : Nat} {r : List Nat}
    (h : parseNumNat l = some (n, r)) : r.length < l.length := by
  cases l with
  | nil => cases h
  | cons c rest =>
    simp only [parseNumNat] at h
    by_cases hc : 48 ≤ c ∧ c ≤ 57
    · rw [if_pos hc] at h
      simp only [Option.some.injEq] at h
      have hle := parseDigitsAux_length (c - 48) rest
      rw [h] at hle
      simp only [List.length_cons]
      simp at hle
      omega
    · rw [if_neg hc] at h; cases h

/-- Number token parser: optional minus sign followed by a greedy digit run. -/
def parseNum : List Nat → Option (Int × List Nat)
  | [] => none
  | c :: rest =>
    if c = 45 then (parseNumNat rest).map fun p => (-(p.1 : Int), p.2)
    else (parseNumNat (c :: rest)).map fun p => ((p.1 : Int), p.2)

theorem parseNum_length {l : List Nat} {i : Int} {r : List Nat}
    (h : parseNum l = some (i, r)) : r.length < l.length := by
  cases l with
  | nil => cases h
  | cons c rest =>
    simp only [parseNum] at h
    by_cases h45 : c = 45
    · rw [if_pos h45] at h
      match hp : parseNumNat rest with
      | none => rw [hp] at h; cases h
      | some (n, r2) =>
        rw [hp] at h
        simp at h
        obtain ⟨-, rfl⟩ := h
        have := parseNumNat_length hp
        simp only [List.length_cons]
        omega
    · rw [if_neg h45] at h
      match hp : parseNumNat (c :: rest) with
      | none => rw [hp] at h; cases h
      | some (n, r2) =>
        rw [hp] at h
        simp at h
        obtain ⟨-, rfl⟩ := h
        exact parseNumNat_length hp

mutual

/-- JSON value parser. -/
def parseVal : (l : List Nat) → Option (JsValue × { r : List Nat // r.length < l.length })
  | [] => none
  | c :: rest =>
    if c = 34 then
      match parseStrBody rest with
      | some (s, ⟨r, hr⟩) => some (.vStr s, ⟨r, by simp only [List.length_cons]; omega⟩)
      | none => none
    else if c = 110 then
      if rest.take 3 = [117, 108, 108] then
        some (.vNull, ⟨rest.drop 3, by simp only [List.length_drop, List.length_cons]; omega⟩)
      else none
    else if c = 116 then
      if rest.take 3 = [114, 117, 101] then
        some (.vBool true, ⟨rest.drop 3, by simp only [List.length_drop, List.length_cons]; omega⟩)
      else none
    else if c = 102 then
      if rest.take 4 = [97, 108, 115, 101] then
        some (.vBool false, ⟨rest.drop 4, by simp only [List.length_drop, List.length_cons]; omega⟩)
      else none
    else if c = 91 then
      match parseArrTail rest with
      | some (v, ⟨r, hr⟩) => some (v, ⟨r, by simp only [List.length_cons]; omega⟩)
      | none => none
    else if c = 123 then
      match parseObjTail rest with
      | some (v, ⟨r, hr⟩) => some (v, ⟨r, by simp only [List.length_cons]; omega⟩)
      | none => none
    else
      match h : parseNum (c :: rest) with
      | some (i, r) => some (.vNum i, ⟨r, parseNum_length h⟩)
      | none => none
termination_by l => (l.length, 1)
decreasing_by
all_goals simp_wf
all_goals apply Prod.Lex.left
all_goals omega

/-- Continuation after an opening bracket: an empty array or its elements. -/
def parseArrTail : (l : List Nat) → Option (JsValue × { r : List Nat // r.length < l.length })
  | 93 :: r => some (.vArr [], ⟨r, by simp⟩)
  | l0 =>
    match parseElems l0 with
    | some (es, ⟨r, hr⟩) => some (.vArr es, ⟨r, hr⟩)
    | none => none
termination_by l => (l.length, 4)
decreasing_by
apply Prod.Lex.right
omega

/-- Continuation after an opening brace: an empty object or its members. -/
def parseObjTail : (l : List Nat) → Option (JsValue × { r : List Nat // r.length < l.length })
  | 125 :: r => some (.vObj [], ⟨r, by simp⟩)
  | l0 =>
    match parseFields l0 with
    | some (fs, ⟨r, hr⟩) => some (.vObj fs, ⟨r, hr⟩)
    | none => none
termination_by l => (l.length, 4)
decreasing_by
apply Prod.Lex.right
omega

/-- Array elements: value, then a comma and more elements or the closing
bracket. -/
def parseElems (l : List Nat) :
    Option (List JsValue × { r : List Nat // r.length < l.length }) :=
  match parseVal l with
  | none => none
  | some (v, ⟨r, hr⟩) =>
    match hR : r with
    | 93 :: r2 =>
      some ([v], ⟨r2, by simp only [List.length_cons] at hr; omega⟩)
    | 44 :: r2 =>
      have hlen : r2.length < l.length := by
        simp only [List.length_cons] at hr; omega
      match parseElems r2 with
      | some (vs, ⟨r3, hr3⟩) => some (v :: vs, ⟨r3, by omega⟩)
      | none => none
    | _ => none
termination_by (l.length, 3)
decreasing_by
· apply Prod.Lex.right
  omega
· apply Prod.Lex.left
  omega

/-- Object members: a string key, a colon, a value, then a comma and more
members or the closing brace. -/
def parseFields :
    (l : List Nat) → Option (List (List Nat × JsValue) × { r : List Nat // r.length < l.length })
  | [] => none
  | c :: rest =>
    if c = 34 then
      match parseStrBody rest with
      | none => none
      | some (k, ⟨r, hr⟩) =>
        match hR : r with
        | 58 :: r2 =>
          have hlen2 : r2.length < rest.length := by
            simp only [List.length_cons] at hr; omega
          match parseVal r2 with
          | none => none
          | some (v, ⟨r3, hr3⟩) =>
            match hR3 : r3 with
            | 125 :: r4 =>
              some ([(k, v)],
                ⟨r4, by simp only [List.length_cons] at hr3 ⊢; omega⟩)
            | 44 :: r4 =>
              have hlen4 : r4.length < rest.length := by
                simp only [List.length_cons] at hr3; omega
              match parseFields r4 with
              | some (fs, ⟨r5, hr5⟩) =>
                some ((k, v) :: fs, ⟨r5, by simp only [List.length_cons] at hr5 ⊢; omega⟩)
              | none => none
            | _ => none
        | _ => none
    else none
termination_by l => (l.length, 3)
decreasing_by
· apply Prod.Lex.left
  try simp only [List.length_cons]
  omega
· apply Prod.Lex.left
  try simp only [List.length_cons]
  omega

end

/-- The hook's `safeParse`: `JSON.parse` returning undefined (`none`) instead
of throwing on malformed input. `JSON.parse` requires the whole input to be
consumed. -/
def safeParse (l : List Nat) : Option JsValue :=
  match parseVal l with
  | some (v, ⟨r, _⟩) => if r = [] then some v else none
  | none => none

/-! ### Parser lemmas on serializer output -/

/-- Length-erased view of `parseStrBody`. -/
def parseStrBodyW (l : List Nat) : Option (List Nat × List Nat) :=
  (parseStrBody l).map fun p => (p.1, p.2.val)

/-- Length-erased view of `parseVal`. -/
def parseValW (l : List Nat) : Option (JsValue × List Nat) :=
  (parseVal l).map fun p => (p.1, p.2.val)

/-- Length-erased view of `parseElems`. -/
def parseElemsW (l : List Nat) : Option (List JsValue × List Nat) :=
  (parseElems l).map fun p => (p.1, p.2.val)

/-- Length-erased view of `parseFields`. -/
def parseFieldsW (l : List Nat) : Option (List (List Nat × JsValue) × List Nat) :=
  (parseFields l).map fun p => (p.1, p.2.val)

theorem parseStrBodyW_some {l : List Nat} {s r : List Nat} :
    parseStrBodyW l = some (s, r) ↔
      ∃ h : r.length < l.length, parseStrBody l = some (s, ⟨r, h⟩) := by
  unfold parseStrBodyW
  constructor
  · intro h
    match hp : parseStrBody l with
    | none => rw [hp] at h; cases h
    | some (s2, ⟨r2, h2⟩) =>
      rw [hp] at h
      simp at h
      obtain ⟨rfl, rfl⟩ := h
      exact ⟨h2, rfl⟩
  · rintro ⟨h, hp⟩
    rw [hp]
    rfl

theorem parseValW_some {l : List Nat} {v : JsValue} {r : List Nat} :
    parseValW l = some (v, r) ↔
      ∃ h : r.length < l.length, parseVal l = some (v, ⟨r, h⟩) := by
  unfold parseValW
  constructor
  · intro h
    match hp : parseVal l with
    | none => rw [hp] at h; cases h
    | some (v2, ⟨r2, h2⟩) =>
      rw [hp] at h
      simp at h
      obtain ⟨rfl, rfl⟩ := h
      exact ⟨h2, rfl⟩
  · rintro ⟨h, hp⟩
    rw [hp]
    rfl

theorem parseElemsW_some {l : List Nat} {vs : List JsValue} {r : List Nat} :
    parseElemsW l = some (vs, r) ↔
      ∃ h : r.length < l.length, parseElems l = some (vs, ⟨r, h⟩) := by
  unfold parseElemsW
  constructor
  · intro h
    match hp : parseElems l with
    | none => rw [hp] at h; cases h
    | some (v2, ⟨r2, h2⟩) =>
      rw [hp] at h
      simp at h
      obtain ⟨rfl, rfl⟩ := h
      exact ⟨h2, rfl⟩
  · rintro ⟨h, hp⟩
    rw [hp]
    rfl

theorem parseFieldsW_some {l : List Nat} {fs : List (List Nat × JsValue)} {r : List Nat} :
    parseFieldsW l = some (fs, r) ↔
      ∃ h : r.length < l.length, parseFields l = some (fs, ⟨r, h⟩) := by
  unfold parseFieldsW
  constructor
  · intro h
    match hp : parseFields l with
    | none => rw [hp] at h; cases h
    | some (v2, ⟨r2, h2⟩) =>
      rw [hp] at h
      simp at h
      obtain ⟨rfl, rfl⟩ := h
      exact ⟨h2, rfl⟩
  · rintro ⟨h, hp⟩
    rw [hp]
    rfl

theorem safeParse_eq_parseValW (l : List Nat) :
    safeParse l =
      match parseValW l with
      | some (v, r) => if r = [] then some v else none
      | none => none := by
  unfold safeParse parseValW
  match hp : parseVal l with
  | none => rfl
  | some (v2, ⟨r2, h2⟩) => rfl

theorem parseStrBodyW_app {s : List Nat} (hs : ∀ c ∈ s, c ≠ 34 ∧ c ≠ 92)
    (rest : List Nat) : parseStrBodyW (s ++ 34 :: rest) = some (s, rest) := by
  induction s with
  | nil => simp [parseStrBodyW, parseStrBody]
  | cons c s ih =>
    have hc := hs c (by simp)
    obtain ⟨h, hraw⟩ :=
      parseStrBodyW_some.mp (ih fun d hd => hs d (by simp [hd]))
    rw [List.cons_append]
    unfold parseStrBodyW
    simp [parseStrBody, hc.1, hc.2, hraw]

/-- Parsing a serialized string literal made of plain characters. -/
theorem parseValW_str {s : List Nat} (hs : ∀ c ∈ s, c ≠ 34 ∧ c ≠ 92)
    (rest : List Nat) : parseValW (strLit s ++ rest) = some (.vStr s, rest) := by
  obtain ⟨h, hraw⟩ := parseStrBodyW_some.mp (parseStrBodyW_app hs rest)
  rw [strLit_plain hs]
  have hshape : (34 :: s ++ [34]) ++ rest = 34 :: (s ++ 34 :: rest) := by simp
  rw [hshape]
  refine parseValW_some.mpr ⟨by simp only [List.length_cons]; omega, ?_⟩
  simp [parseVal, hraw]

/-- A digit run is parsed back as the number it denotes. -/
theorem parseNumNat_natDigits (n : Nat) {rest : List Nat} (hrest : headNotDigit rest) :
    parseNumNat (natDigits n ++ rest) = some (n, rest) := by
  obtain ⟨d, ds, hshape, hd1, hd2⟩ : ∃ d ds, natDigits n = d :: ds ∧ 48 ≤ d ∧ d ≤ 57 := by
    cases h : natDigits n with
    | nil => exact absurd h (natDigits_ne_nil n)
    | cons d ds =>
      have := natDigits_are_digits n d (by rw [h]; simp)
      exact ⟨d, ds, rfl, this.1, this.2⟩
  rw [hshape, List.cons_append]
  simp only [parseNumNat]
  rw [if_pos ⟨hd1, hd2⟩]
  have hds : ∀ c ∈ ds, 48 ≤ c ∧ c ≤ 57 := by
    intro c hc
    exact natDigits_are_digits n c (by rw [hshape]; simp [hc])
  rw [parseDigitsAux_app hds hrest]
  have hfold : ds.foldl (fun a c => a * 10 + (c - 48)) (d - 48) = n := by
    have := digitsVal_natDigits n
    rw [hshape] at this
    simpa using this
  rw [hfold]

theorem parseValW_nat (n : Nat) {rest : List Nat} (hrest : headNotDigit rest) :
    parseValW (natDigits n ++ rest) = some (.vNum (n : Int), rest) := by
  obtain ⟨d, ds, hshape, hd1, hd2⟩ : ∃ d ds, natDigits n = d :: ds ∧ 48 ≤ d ∧ d ≤ 57 := by
    cases h : natDigits n with
    | nil => exact absurd h (natDigits_ne_nil n)
    | cons d ds =>
      have := natDigits_are_digits n d (by rw [h]; simp)
      exact ⟨d, ds, rfl, this.1, this.2⟩
  have hpn : parseNum (natDigits n ++ rest) = some ((n : Int), rest) := by
    rw [hshape, List.cons_append]
    simp only [parseNum]
    rw [if_neg (by omega : ¬ d = 45)]
    rw [← List.cons_append, ← hshape, parseNumNat_natDigits n hrest]
    rfl
  rw [hshape, List.cons_append] at hpn ⊢
  refine parseValW_some.mpr ⟨?_, ?_⟩
  · have := parseNum_length hpn
    exact this
  · simp only [parseVal]
    rw [if_neg (by omega : ¬ d = 34), if_neg (by omega : ¬ d = 110),
      if_neg (by omega : ¬ d = 116), if_neg (by omega : ¬ d = 102),
      if_neg (by omega : ¬ d = 91), if_neg (by omega : ¬ d = 123)]
    split
    · next i r heq =>
      rw [hpn] at heq
      simp only [Option.some.injEq, Prod.mk.injEq] at heq
      obtain ⟨rfl, rfl⟩ := heq
      rfl
    · next heq => rw [hpn] at heq; cases heq

theorem natDigits_shape (n : Nat) :
    ∃ d ds, natDigits n = d :: ds ∧ 48 ≤ d ∧ d ≤ 57 := by
  cases h : natDigits n with
  | nil => exact absurd h (natDigits_ne_nil n)
  | cons d ds =>
    have := natDigits_are_digits n d (by rw [h]; simp)
    exact ⟨d, ds, rfl, this.1, this.2⟩

theorem intChars_ofNat (n : Nat) : intChars (n : Int) = natDigits n := by
  unfold intChars
  rw [if_neg (by omega)]
  simp

/-- Array of JSON numbers corresponding to a byte list (`Array.from` of a
Uint8Array inside `JSON.stringify`). -/
def numArr : List Nat → List JsValue
  | [] => []
  | b :: rest => JsValue.vNum (Int.ofNat b) :: numArr rest

/-- Parsing the serialized elements of a nonempty array of naturals. -/
theorem parseElemsW_nums :
    ∀ (ns : List Nat), ns ≠ [] → ∀ rest : List Nat,
      parseElemsW (jsonStrElems (numArr ns) ++ 93 :: rest) = some (numArr ns, rest)
  | [], hne => absurd rfl hne
  | [n], _ => by
    intro rest
    have hnum := @parseValW_nat n (93 :: rest) (by simp [headNotDigit])
    obtain ⟨h, hraw⟩ := parseValW_some.mp hnum
    have hic : intChars (Int.ofNat n) = natDigits n := intChars_ofNat n
    simp only [numArr, jsonStrElems, jsonStr, hic]
    refine parseElemsW_some.mpr ⟨by simp only [List.length_append, List.length_cons]; omega, ?_⟩
    rw [parseElems]
    rw [hraw]
    simp [numArr]
  | n :: m :: ns, _ => by
    intro rest
    have ih := parseElemsW_nums (m :: ns) (by simp) rest
    obtain ⟨hih, hihraw⟩ := parseElemsW_some.mp ih
    have hnum := @parseValW_nat n
      (44 :: (jsonStrElems (numArr (m :: ns)) ++ 93 :: rest))
      (by simp [headNotDigit])
    obtain ⟨h, hraw⟩ := parseValW_some.mp hnum
    have hic : intChars (Int.ofNat n) = natDigits n := intChars_ofNat n
    have hshape :
        jsonStrElems (numArr (n :: m :: ns)) ++ 93 :: rest =
          natDigits n ++ (44 :: (jsonStrElems (numArr (m :: ns)) ++ 93 :: rest)) := by
      simp only [numArr, jsonStrElems, jsonStr, hic]
      simp
    rw [hshape]
    refine parseElemsW_some.mpr ⟨?_, ?_⟩
    · simp only [List.length_append, List.length_cons] at h ⊢
      omega
    · rw [parseElems]
      rw [hraw]
      simp only [hihraw]
      simp [numArr]

/-- Unfolding of the array-tail helper when the next character is not a
closing bracket. -/
theorem parseArrTail_ne (l : List Nat) (hne : ∀ r, l ≠ 93 :: r) :
    parseArrTail l =
      match parseElems l with
      | some (es, ⟨r, hr⟩) => some (.vArr es, ⟨r, hr⟩)
      | none => none := by
  cases l with
  | nil => simp [parseArrTail]
  | cons c rest =>
    have hc : ¬ c = 93 := fun h => hne rest (by rw [h])
    simp [parseArrTail, hc]

/-- Unfolding of the object-tail helper when the next character is not a
closing brace. -/
theorem parseObjTail_ne (l : List Nat) (hne : ∀ r, l ≠ 125 :: r) :
    parseObjTail l =
      match parseFields l with
      | some (fs, ⟨r, hr⟩) => some (.vObj fs, ⟨r, hr⟩)
      | none => none := by
  cases l with
  | nil => simp [parseObjTail, parseFields]
  | cons c rest =>
    have hc : ¬ c = 125 := fun h => hne rest (by rw [h])
    simp [parseObjTail, hc]

/-- Parsing a serialized array of naturals. -/
theorem parseValW_numArr (ns : List Nat) (rest : List Nat) :
    parseValW (jsonStr (.vArr (numArr ns)) ++ rest) = some (.vArr (numArr ns), rest) := by
  cases ns with
  | nil =>
    have hshape : jsonStr (.vArr (numArr [])) ++ rest = 91 :: 93 :: rest := rfl
    rw [hshape]
    refine parseValW_some.mpr ⟨by simp only [List.length_cons]; omega, ?_⟩
    simp [parseVal, parseArrTail, numArr]
  | cons n ns =>
    have helems := parseElemsW_nums (n :: ns) (by simp) rest
    obtain ⟨he, heraw⟩ := parseElemsW_some.mp helems
    obtain ⟨d, ds, hdig, hd1, hd2⟩ := natDigits_shape n
    have hshape :
        jsonStr (.vArr (numArr (n :: ns))) ++ rest =
          91 :: (jsonStrElems (numArr (n :: ns)) ++ 93 :: rest) := by
      simp only [jsonStr]
      simp
    rw [hshape]
    have hic : intChars (Int.ofNat n) = natDigits n := intChars_ofNat n
    have hhead :
        ∃ t, jsonStrElems (numArr (n :: ns)) ++ 93 :: rest = d :: t := by
      cases ns with
      | nil =>
        refine ⟨ds ++ 93 :: rest, ?_⟩
        simp only [numArr, jsonStrElems, jsonStr, hic, hdig]
        simp
      | cons m ns2 =>
        refine ⟨ds ++ 44 :: (jsonStrElems (numArr (m :: ns2)) ++ 93 :: rest), ?_⟩
        simp only [numArr, jsonStrElems, jsonStr, hic, hdig]
        simp
    obtain ⟨t, ht⟩ := hhead
    refine parseValW_some.mpr ⟨?_, ?_⟩
    · simp only [List.length_cons] at he ⊢
      omega
    · simp only [parseVal]
      norm_num
      rw [parseArrTail_ne _ (by
        intro r hcontra
        rw [ht] at hcontra
        simp only [List.cons.injEq] at hcontra
        omega)]
      rw [heraw]

/-- Parsing a single trailing object member. -/
theorem parseFieldsW_last {k body rest : List Nat} {v : JsValue}
    (hk : ∀ c ∈ k, c ≠ 34 ∧ c ≠ 92)
    (hv : parseValW (body ++ 125 :: rest) = some (v, 125 :: rest)) :
    parseFieldsW (strLit k ++ 58 :: (body ++ 125 :: rest)) = some ([(k, v)], rest) := by
  obtain ⟨hkb, hkraw⟩ :=
    parseStrBodyW_some.mp (parseStrBodyW_app hk (58 :: (body ++ 125 :: rest)))
  obtain ⟨hvb, hvraw⟩ := parseValW_some.mp hv
  rw [strLit_plain hk]
  have hshape : (34 :: k ++ [34]) ++ 58 :: (body ++ 125 :: rest) =
      34 :: (k ++ 34 :: (58 :: (body ++ 125 :: rest))) := by simp
  rw [hshape]
  refine parseFieldsW_some.mpr ⟨by simp only [List.length_cons, List.length_append]; omega, ?_⟩
  simp only [parseFields, if_pos rfl]
  rw [hkraw]
  simp only
  rw [hvraw]
  rfl

/-- Parsing an object member followed by further members. -/
theorem parseFieldsW_cons {k body tail rest : List Nat} {v : JsValue}
    {fs : List (List Nat × JsValue)}
    (hk : ∀ c ∈ k, c ≠ 34 ∧ c ≠ 92)
    (hv : parseValW (body ++ 44 :: tail) = some (v, 44 :: tail))
    (htail : parseFieldsW tail = some (fs, rest)) :
    parseFieldsW (strLit k ++ 58 :: (body ++ 44 :: tail)) = some ((k, v) :: fs, rest) := by
  obtain ⟨hkb, hkraw⟩ :=
    parseStrBodyW_some.mp (parseStrBodyW_app hk (58 :: (body ++ 44 :: tail)))
  obtain ⟨hvb, hvraw⟩ := parseValW_some.mp hv
  obtain ⟨htb, htraw⟩ := parseFieldsW_some.mp htail
  rw [strLit_plain hk]
  have hshape : (34 :: k ++ [34]) ++ 58 :: (body ++ 44 :: tail) =
      34 :: (k ++ 34 :: (58 :: (body ++ 44 :: tail))) := by simp
  rw [hshape]
  refine parseFieldsW_some.mpr ⟨by simp only [List.length_cons, List.length_append] at htb ⊢; omega, ?_⟩
  simp only [parseFields, if_pos rfl]
  rw [hkraw]
  simp only
  rw [hvraw]
  simp only
  rw [htraw]
  rfl

/-- Parsing a serialized nonempty object whose members start with a string
key. -/
theorem parseValW_objStr {t rest : List Nat} {fs : List (List Nat × JsValue)}
    (hfs : parseFieldsW (34 :: t) = some (fs, rest)) :
    parseValW (123 :: 34 :: t) = some (.vObj fs, rest) := by
  obtain ⟨hb, hraw⟩ := parseFieldsW_some.mp hfs
  refine parseValW_some.mpr ⟨by simp only [List.length_cons] at hb ⊢; omega, ?_⟩
  simp only [parseVal]
  rw [if_neg (by omega : ¬ (123 : Nat) = 34), if_neg (by omega : ¬ (123 : Nat) = 110),
    if_neg (by omega : ¬ (123 : Nat) = 116), if_neg (by omega : ¬ (123 : Nat) = 102),
    if_neg (by omega : ¬ (123 : Nat) = 91), if_pos trivial]
  rw [parseObjTail_ne _ (by intro r hcontra; simp only [List.cons.injEq] at hcontra; omega)]
  rw [hraw]

theorem safeParse_of_parseValW {l : List Nat} {v : JsValue}
    (h : parseValW l = some (v, [])) : safeParse l = some v := by
  obtain ⟨hb, hraw⟩ := parseValW_some.mp h
  unfold safeParse
  rw [hraw]
  rfl

/-! ### crypto.js: key derivation, idealized AES-GCM, XOR fallback -/

/-- PBKDF2 key derivation (`deriveKey` in crypto.js): throws unless the
secret is a string of at least 8 characters. Derivation is deterministic;
the idealized derived key is represented by the secret itself. -/
def deriveKey (secret : List Nat) : Option (List Nat) :=
  if secret.length < 8 then none else some secret

/-- Idealized `crypto.subtle.encrypt` (AES-GCM): an injective encoding of
key, iv and message. -/
def subtleSeal (key iv msg : List Nat) : List Nat :=
  key.length :: (key ++ (iv.length :: (iv ++ msg)))

/-- Idealized `crypto.subtle.decrypt` (AES-GCM): fails (OperationError)
unless the blob was sealed under the same key and iv — the ideal
authentication tag. -/
def subtleOpen (key iv blob : List Nat) : Option (List Nat) :=
  match blob with
  | [] => none
  | klen :: rest =>
    if klen = key.length ∧ rest.take key.length = key then
      match rest.drop key.length with
      | [] => none
      | ilen :: rest2 =>
        if ilen = iv.length ∧ rest2.take iv.length = iv then some (rest2.drop iv.length)
        else none
    else none

theorem subtleOpen_subtleSeal (key iv msg : List Nat) :
    subtleOpen key iv (subtleSeal key iv msg) = some msg := by
  unfold subtleSeal subtleOpen
  simp [List.take_left, List.drop_left]

/-- The JSON object keys appearing in crypto.js and the hook. -/
def ivKey : List Nat := [105, 118]

def dataKey : List Nat := [100, 97, 116, 97]

def expiresKey : List Nat := [101, 120, 112, 105, 114, 101, 115]

theorem ivKey_plain : ∀ c ∈ ivKey, c ≠ 34 ∧ c ≠ 92 := by decide

theorem dataKey_plain : ∀ c ∈ dataKey, c ≠ 34 ∧ c ≠ 92 := by decide

theorem expiresKey_plain : ∀ c ∈ expiresKey, c ≠ 34 ∧ c ≠ 92 := by decide

/-- The object `{ iv: Array.from(iv), data: Array.from(new Uint8Array(buf)) }`
built by `encryptAES`. -/
def ivDataObj (iv blob : List Nat) : JsValue :=
  .vObj [(ivKey, .vArr (numArr iv)), (dataKey, .vArr (numArr blob))]

/-- JavaScript property access on a parsed value (absent properties and
non-object receivers give undefined). -/
def getProp : JsValue → List Nat → Option JsValue
  | .vObj fs, k => fs.foldl (fun acc p => if p.1 = k then some p.2 else acc) none
  | _, _ => none

/-- Reading a JSON value back as a byte list (`new Uint8Array(arr)` on the
decoded arrays; non-arrays and non-numeric entries are modelled as a
decryption failure). -/
def numList : List JsValue → Option (List Nat)
  | [] => some []
  | .vNum n :: rest => if n < 0 then none else (numList rest).map fun l => n.toNat :: l
  | _ => none

def numListOf : Option JsValue → Option (List Nat)
  | some (.vArr es) => numList es
  | _ => none

theorem numList_numArr : ∀ l : List Nat, numList (numArr l) = some l
  | [] => rfl
  | b :: rest => by
    simp only [numArr, numList]
    rw [if_neg (by rw [Int.ofNat_eq_natCast]; omega), numList_numArr rest]
    simp

theorem numArr_inj {l1 l2 : List Nat} (h : numArr l1 = numArr l2) : l1 = l2 := by
  have h1 := numList_numArr l1
  rw [h, numList_numArr l2] at h1
  exact (Option.some_inj.mp h1).symm

/-- `encryptAES(secret, data)`: derive a key, seal with the supplied fresh
iv (the random tape is an explicit argument), then
`btoa(JSON.stringify({ iv, data }))`. -/
def encryptAES (iv secret data : List Nat) : Option (List Nat) :=
  match deriveKey secret with
  | none => none
  | some key => btoa (jsonStr (ivDataObj iv (subtleSeal key iv data)))

/-- `decryptAES(secret, payload)`:
`JSON.parse(atob(payload))`, destructure iv and data, derive the key and
open. Every throw is `none`. -/
def decryptAES (secret payload : List Nat) : Option (List Nat) :=
  (atob payload).bind fun s =>
  (safeParse s).bind fun obj =>
  (numListOf (getProp obj ivKey)).bind fun ivl =>
  (numListOf (getProp obj dataKey)).bind fun datal =>
  (deriveKey secret).bind fun key =>
  subtleOpen key ivl datal

/-- Cycled XOR of a string against the secret, as in `encryptXOR` and
`decryptXOR` (`String.fromCharCode` wraps at 2^16). -/
def xorCycle (secret : List Nat) : Nat → List Nat → List Nat
  | _, [] => []
  | i, c :: rest =>
    ((c ^^^ secret.getD (i % secret.length) 0) % 65536) :: xorCycle secret (i + 1) rest

/-- `encryptXOR(secret, data)`: throws unless the secret is nonempty, then
`btoa` of the XOR transform (which throws on code units above 255). The
`console.warn` side effect is not modelled. -/
def encryptXOR (secret data : List Nat) : Option (List Nat) :=
  if secret.length < 1 then none else btoa (xorCycle secret 0 data)

/-- `decryptXOR(secret, payload)`: throws unless the secret is nonempty,
then XORs `atob(payload)`. -/
def decryptXOR (secret payload : List Nat) : Option (List Nat) :=
  if secret.length < 1 then none
  else (atob payload).map fun raw => xorCycle secret 0 raw

theorem xor_lt_65536 {a b : Nat} (ha : a < 65536) (hb : b < 65536) :
    a ^^^ b < 65536 := by
  have e : (65536 : Nat) = 2 ^ 16 := by norm_num
  rw [e] at ha hb ⊢
  exact Nat.bitwise_lt ha hb

theorem xorCycle_invol {secret : List Nat} (hsec : ∀ c ∈ secret, c < 65536) :
    ∀ (i : Nat) (data : List Nat), (∀ c ∈ data, c < 65536) →
      xorCycle secret i (xorCycle secret i data) = data
  | _, [], _ => rfl
  | i, c :: rest, hdata => by
    have hc : c < 65536 := hdata c (by simp)
    have hs : secret.getD (i % secret.length) 0 < 65536 := by
      rcases Nat.eq_zero_or_pos secret.length with hz | hpos
      · have hnil : secret = [] := List.length_eq_zero.mp hz
        subst hnil
        simp [List.getD]
      · have hidx : i % secret.length < secret.length := Nat.mod_lt _ hpos
        rw [List.getD_eq_getElem?_getD, List.getElem?_eq_getElem hidx]
        exact hsec _ (List.getElem_mem hidx)
    have hx : (c ^^^ secret.getD (i % secret.length) 0) % 65536 =
        c ^^^ secret.getD (i % secret.length) 0 :=
      Nat.mod_eq_of_lt (xor_lt_65536 hc hs)
    simp only [xorCycle]
    rw [hx]
    rw [Nat.xor_cancel_right]
    rw [Nat.mod_eq_of_lt hc]
    rw [xorCycle_invol hsec (i + 1) rest (fun d hd => hdata d (by simp [hd]))]

/-! ### Envelope and payload serialization round trips -/

/-- Parsing an object whose first member key is a plain string literal. -/
theorem parseValW_objFirst {k t rest : List Nat} {fs : List (List Nat × JsValue)}
    (hk : ∀ c ∈ k, c ≠ 34 ∧ c ≠ 92)
    (hfs : parseFieldsW (strLit k ++ t) = some (fs, rest)) :
    parseValW (123 :: (strLit k ++ t)) = some (.vObj fs, rest) := by
  rw [strLit_plain hk] at hfs ⊢
  have hshape : (34 :: k ++ [34]) ++ t = 34 :: (k ++ 34 :: t) := by simp
  rw [hshape] at hfs ⊢
  exact parseValW_objStr hfs

/-- Round trip for a serialized one-member object. -/
theorem safeParse_obj1 {k : List Nat} {v : JsValue}
    (hk : ∀ c ∈ k, c ≠ 34 ∧ c ≠ 92)
    (hv : parseValW (jsonStr v ++ 125 :: []) = some (v, 125 :: [])) :
    safeParse (jsonStr (.vObj [(k, v)])) = some (.vObj [(k, v)]) := by
  apply safeParse_of_parseValW
  have hfield : parseFieldsW (strLit k ++ 58 :: (jsonStr v ++ 125 :: [])) =
      some ([(k, v)], []) := parseFieldsW_last hk hv
  have hshape : jsonStr (.vObj [(k, v)]) =
      123 :: (strLit k ++ (58 :: (jsonStr v ++ 125 :: []))) := by
    simp [jsonStr, jsonStrFields]
  rw [hshape]
  exact parseValW_objFirst hk hfield

/-- Round trip for a serialized two-member object. -/
theorem safeParse_obj2 {k1 k2 : List Nat} {v1 v2 : JsValue}
    (hk1 : ∀ c ∈ k1, c ≠ 34 ∧ c ≠ 92) (hk2 : ∀ c ∈ k2, c ≠ 34 ∧ c ≠ 92)
    (hv1 : parseValW (jsonStr v1 ++ 44 :: (strLit k2 ++ 58 :: (jsonStr v2 ++ 125 :: []))) =
      some (v1, 44 :: (strLit k2 ++ 58 :: (jsonStr v2 ++ 125 :: []))))
    (hv2 : parseValW (jsonStr v2 ++ 125 :: []) = some (v2, 125 :: [])) :
    safeParse (jsonStr (.vObj [(k1, v1), (k2, v2)])) =
      some (.vObj [(k1, v1), (k2, v2)]) := by
  apply safeParse_of_parseValW
  have htail : parseFieldsW (strLit k2 ++ 58 :: (jsonStr v2 ++ 125 :: [])) =
      some ([(k2, v2)], []) := parseFieldsW_last hk2 hv2
  have hcons : parseFieldsW
      (strLit k1 ++ 58 :: (jsonStr v1 ++ 44 :: (strLit k2 ++ 58 :: (jsonStr v2 ++ 125 :: [])))) =
      some ((k1, v1) :: [(k2, v2)], []) :=
    parseFieldsW_cons hk1 hv1 htail
  have hshape : jsonStr (.vObj [(k1, v1), (k2, v2)]) =
      123 :: (strLit k1 ++
        (58 :: (jsonStr v1 ++ 44 :: (strLit k2 ++ 58 :: (jsonStr v2 ++ 125 :: []))))) := by
    simp [jsonStr, jsonStrFields]
  rw [hshape]
  exact parseValW_objFirst hk1 hcons

/-- Round trip for the `{iv, data}` object inside an AES blob. -/
theorem safeParse_ivDataObj (iv blob : List Nat) :
    safeParse (jsonStr (ivDataObj iv blob)) = some (ivDataObj iv blob) :=
  safeParse_obj2 ivKey_plain dataKey_plain (parseValW_numArr iv _) (parseValW_numArr blob _)

theorem getProp_ivData_iv (iv blob : List Nat) :
    getProp (ivDataObj iv blob) ivKey = some (.vArr (numArr iv)) := by
  simp [getProp, ivDataObj, show dataKey ≠ ivKey from by decide]

theorem getProp_ivData_data (iv blob : List Nat) :
    getProp (ivDataObj iv blob) dataKey = some (.vArr (numArr blob)) := by
  simp [getProp, ivDataObj]

/-! ### Character bounds for btoa over serialized blobs -/

theorem strLit_ivKey_ascii : ∀ c ∈ strLit ivKey, c < 256 := by decide

theorem strLit_dataKey_ascii : ∀ c ∈ strLit dataKey, c < 256 := by decide

theorem jsonStrElems_numArr_one (n : Nat) : jsonStrElems (numArr [n]) = natDigits n := by
  simp [numArr, jsonStrElems, jsonStr, intChars_ofNat]

theorem jsonStrElems_numArr_cons (n : Nat) (ns : List Nat) (hns : ns ≠ []) :
    jsonStrElems (numArr (n :: ns)) = natDigits n ++ 44 :: jsonStrElems (numArr ns) := by
  cases ns with
  | nil => exact absurd rfl hns
  | cons m ns2 =>
    simp only [numArr, jsonStrElems, jsonStr]
    rw [show intChars (Int.ofNat n) = natDigits n from intChars_ofNat n]

theorem jsonStrElems_numArr_ascii :
    ∀ l : List Nat, ∀ c ∈ jsonStrElems (numArr l), c < 256
  | [] => by simp [numArr, jsonStrElems]
  | [n] => by
    rw [jsonStrElems_numArr_one]
    intro c hc
    have := natDigits_are_digits n c hc
    omega
  | n :: m :: ns => by
    rw [jsonStrElems_numArr_cons n (m :: ns) (by simp)]
    intro c hc
    simp only [List.mem_append, List.mem_cons] at hc
    rcases hc with hc | rfl | hc
    · have := natDigits_are_digits n c hc
      omega
    · omega
    · exact jsonStrElems_numArr_ascii (m :: ns) c hc

theorem jsonStr_numArr_ascii (l : List Nat) :
    ∀ c ∈ jsonStr (.vArr (numArr l)), c < 256 := by
  intro c hc
  simp only [jsonStr, List.mem_cons, List.mem_append, List.mem_singleton,
    List.not_mem_nil, or_false] at hc
  casesm* _ ∨ _
  all_goals first
    | omega
    | exact jsonStrElems_numArr_ascii l c (by assumption)

theorem jsonStr_ivData_ascii (iv blob : List Nat) :
    ∀ c ∈ jsonStr (ivDataObj iv blob), c < 256 := by
  intro c hc
  simp only [ivDataObj, jsonStr, jsonStrFields, List.mem_cons, List.mem_append,
    List.mem_singleton, List.not_mem_nil, or_false] at hc
  casesm* _ ∨ _
  all_goals first
    | omega
    | exact strLit_ivKey_ascii c (by assumption)
    | exact strLit_dataKey_ascii c (by assumption)
    | exact jsonStrElems_numArr_ascii iv c (by assumption)
    | exact jsonStrElems_numArr_ascii blob c (by assumption)

/-- With a valid secret, `encryptAES` succeeds and produces the base64 of
the serialized `{iv, data}` object. -/
theorem encryptAES_eq {secret : List Nat} (h8 : 8 ≤ secret.length)
    (iv data : List Nat) :
    encryptAES iv secret data =
      some (b64encode (jsonStr (ivDataObj iv (subtleSeal secret iv data)))) := by
  unfold encryptAES deriveKey
  rw [if_neg (by omega)]
  show btoa (jsonStr (ivDataObj iv (subtleSeal secret iv data))) =
    some (b64encode (jsonStr (ivDataObj iv (subtleSeal secret iv data))))
  unfold btoa
  rw [if_pos]
  simp only [List.all_eq_true, decide_eq_true_eq]
  exact fun c hc => jsonStr_ivData_ascii iv (subtleSeal secret iv data) c hc

/-- AES round trip: whatever `encryptAES` produced, `decryptAES` under the
same secret recovers the plaintext. -/
theorem decryptAES_encryptAES {iv secret data e : List Nat}
    (he : encryptAES iv secret data = some e) :
    decryptAES secret e = some data := by
  unfold encryptAES at he
  match hk : deriveKey secret with
  | none => rw [hk] at he; cases he
  | some key =>
    rw [hk] at he
    have hatob := atob_btoa he
    have hkey : key = secret := by
      unfold deriveKey at hk
      split at hk
      · cases hk
      · exact (Option.some_inj.mp hk).symm
    subst hkey
    unfold decryptAES
    rw [hatob]
    simp only [Option.some_bind]
    rw [safeParse_ivDataObj]
    simp only [Option.some_bind]
    rw [getProp_ivData_iv, getProp_ivData_data]
    simp only [numListOf, numList_numArr, Option.some_bind]
    rw [hk]
    simp only [Option.some_bind]
    exact subtleOpen_subtleSeal key iv data

/-- XOR round trip: whatever `encryptXOR` produced, `decryptXOR` under the
same secret recovers the plaintext (code units of JavaScript strings are
below 2^16). -/
theorem decryptXOR_encryptXOR {secret data e : List Nat}
    (hsec : ∀ c ∈ secret, c < 65536) (hdata : ∀ c ∈ data, c < 65536)
    (he : encryptXOR secret data = some e) :
    decryptXOR secret e = some data := by
  unfold encryptXOR at he
  by_cases hlen : secret.length < 1
  · rw [if_pos hlen] at he; cases he
  · rw [if_neg hlen] at he
    have hatob := atob_btoa he
    unfold decryptXOR
    rw [if_neg hlen, hatob]
    show some (xorCycle secret 0 (xorCycle secret 0 data)) = some data
    rw [xorCycle_invol hsec 0 data hdata]

/-! ### The envelope payload written to the backend -/

/-- The string `JSON.stringify({ data: encrypted, ...(ttl ? {expires} : {}) })`
written by `save` and `reencrypt`; an undefined `data` (the
capability-absent, fallback-disabled rotation) is dropped by
`JSON.stringify`. -/
def stringifyPayload (dataF : Option (List Nat)) (expF : Option Nat) : List Nat :=
  jsonStr (.vObj
    ((match dataF with | some b => [(dataKey, JsValue.vStr b)] | none => []) ++
      (match expF with
        | some e => [(expiresKey, JsValue.vNum (Int.ofNat e))]
        | none => [])))

theorem jsonStr_vStr (s : List Nat) : jsonStr (.vStr s) = strLit s := by
  simp [jsonStr]

theorem jsonStr_vNum_ofNat (e : Nat) :
    jsonStr (.vNum (Int.ofNat e)) = natDigits e := by
  simp only [jsonStr]
  exact intChars_ofNat e

theorem safeParse_payload_data {blob : List Nat}
    (hplain : ∀ c ∈ blob, c ≠ 34 ∧ c ≠ 92) :
    safeParse (stringifyPayload (some blob) none) =
      some (.vObj [(dataKey, .vStr blob)]) := by
  unfold stringifyPayload
  simp only [List.append_nil]
  apply safeParse_obj1 dataKey_plain
  rw [jsonStr_vStr]
  exact parseValW_str hplain (125 :: [])

theorem safeParse_payload_dataExp {blob : List Nat} (e : Nat)
    (hplain : ∀ c ∈ blob, c ≠ 34 ∧ c ≠ 92) :
    safeParse (stringifyPayload (some blob) (some e)) =
      some (.vObj [(dataKey, .vStr blob), (expiresKey, .vNum (Int.ofNat e))]) := by
  unfold stringifyPayload
  simp only [List.cons_append, List.nil_append]
  apply safeParse_obj2 dataKey_plain expiresKey_plain
  · rw [jsonStr_vStr]
    exact parseValW_str hplain _
  · rw [jsonStr_vNum_ofNat]
    exact parseValW_nat e (by simp [headNotDigit])

theorem getProp_payload_data {blob : List Nat} :
    getProp (.vObj [(dataKey, .vStr blob)]) dataKey = some (.vStr blob) := by
  simp [getProp]

theorem getProp_payload_expires_none {blob : List Nat} :
    getProp (.vObj [(dataKey, .vStr blob)]) expiresKey = none := by
  simp [getProp, show dataKey ≠ expiresKey from by decide]

theorem getProp_payloadExp_data {blob : List Nat} {e : Int} :
    getProp (.vObj [(dataKey, .vStr blob), (expiresKey, .vNum e)]) dataKey =
      some (.vStr blob) := by
  simp [getProp, show expiresKey ≠ dataKey from by decide]

theorem getProp_payloadExp_expires {blob : List Nat} {e : Int} :
    getProp (.vObj [(dataKey, .vStr blob), (expiresKey, .vNum e)]) expiresKey =
      some (.vNum e) := by
  simp [getProp]

/-! ### The store orchestrator: the useEncryptedStorage hook -/

/-- Configuration of one key-binding, from the hook options: the resolved
`options.secret` or context default (`none` is undefined), the optional
`ttl`, whether `fallback === "xor"`, and the `hasAES()` capability probe. -/
structure Config where
  secret : Option (List Nat)
  ttl : Option Nat
  fallbackXor : Bool
  hasAES : Bool

/-- JavaScript truthiness of the resolved secret (the `!secret` guard). -/
def secretTruthy (cfg : Config) : Bool :=
  match cfg.secret with
  | none => false
  | some s => decide (s ≠ [])

/-- The secret string used once the truthiness guard passed. -/
def secretStr (cfg : Config) : List Nat := cfg.secret.getD []

/-- JavaScript truthiness of the `ttl` option (`ttl ? ... : ...`). -/
def ttlTruthy : Option Nat → Bool
  | none => false
  | some n => decide (n ≠ 0)

/-- JavaScript truthiness of a parsed JSON value (the `!parsed` guard). -/
def jsTruthy : JsValue → Bool
  | .vNull => false
  | .vBool b => b
  | .vNum n => decide (n ≠ 0)
  | .vStr s => decide (s ≠ [])
  | .vArr _ => true
  | .vObj _ => true
  | .vBigInt n => decide (n ≠ 0)

/-- Truthiness of a property read (undefined is falsy). -/
def jsTruthyOpt : Option JsValue → Bool
  | none => false
  | some v => jsTruthy v

/-- JavaScript numeric coercion for `Date.now() > parsed.expires`; values
coercing to NaN give `none` and the comparison is then false. -/
def toNumber : JsValue → Option Int
  | .vNull => some 0
  | .vBool b => some (if b then 1 else 0)
  | .vNum n => some n
  | .vStr s => (parseNum s).bind fun p => if p.2 = [] then some p.1 else none
  | _ => none

/-- Whether `Date.now() > parsed.expires` holds. -/
def nowGtExpiresOpt (now : Nat) : Option JsValue → Bool
  | some v =>
    match toNumber v with
    | some m => decide ((now : Int) > m)
    | none => false
  | none => false

/-- Mutable state of one key-binding: the visible React value, the
`lock.current` ref, and this key's backend cell. -/
structure BState where
  value : JsValue
  lock : Bool
  backend : Option (List Nat)

/-- Reports delivered through the `onError` callback, by message. -/
inductive ErrTag where
  | missingSecret
  | notSerializable
  | noCrypto
  | corruptedData
  | backendSet
  | cryptoThrew
  | weakSecret

/-- Observable outcome of one operation: final state, the `onError` reports
in order, how often `onFallback` fired, whether `onReencrypt` fired, how
often `storage.setItem` was invoked, and whether an exception escaped the
operation uncaught. -/
structure OpOut where
  st : BState
  errs : List ErrTag
  fallbacks : Nat
  reenc : Bool
  setCalls : Nat
  threw : Bool

/-- Result of the encryption try/catch inside `save`. -/
inductive EncPhase where
  | ok (blob : List Nat) (fb : Nat)
  | reported (tag : ErrTag)
  | uncaught (fb : Nat)

/-- The encryption try/catch of `save`: the strong path, else the XOR
fallback; a throw from `encryptXOR` inside the catch block escapes the
function uncaught (there is no finally). When the strong path is absent the
try block already used the fallback, so the catch retries the same
deterministic call and the second throw is the uncaught one (two
`onFallback` firings). -/
def encPhase (cfg : Config) (iv secret plain : List Nat) : EncPhase :=
  if cfg.hasAES then
    match encryptAES iv secret plain with
    | some b => .ok b 0
    | none =>
      if cfg.fallbackXor then
        match encryptXOR secret plain with
        | some b => .ok b 1
        | none => .uncaught 1
      else .reported .cryptoThrew
  else if cfg.fallbackXor then
    match encryptXOR secret plain with
    | some b => .ok b 1
    | none => .uncaught 2
  else .reported .noCrypto

/-- The `save` callback: secret and serializability validations, lock
test-and-set, optimistic `setValue`, encryption with fallback, envelope
build and `setItem`. `iv` is the strong path's random tape, `now` the
clock, `setFails` whether `storage.setItem` throws. -/
def save (cfg : Config) (iv : List Nat) (now : Nat) (setFails : Bool)
    (st : BState) (val : JsValue) : OpOut :=
  if ¬ secretTruthy cfg then
    ⟨st, [.missingSecret], 0, false, 0, false⟩
  else if ¬ isSerializable val then
    ⟨st, [.notSerializable], 0, false, 0, false⟩
  else if st.lock then
    ⟨st, [], 0, false, 0, false⟩
  else
    let st1 : BState := { st with lock := true, value := val }
    match encPhase cfg iv (secretStr cfg) (jsonStr val) with
    | .uncaught fb => ⟨st1, [], fb, false, 0, true⟩
    | .reported tag => ⟨{ st1 with lock := false }, [tag], 0, false, 0, false⟩
    | .ok blob fb =>
      let payload := stringifyPayload (some blob)
        (if ttlTruthy cfg.ttl then some (now + cfg.ttl.getD 0) else none)
      if setFails then
        ⟨{ st1 with lock := false }, [.backendSet], fb, false, 1, false⟩
      else
        ⟨{ st1 with lock := false, backend := some payload }, [], fb, false, 1, false⟩

/-- One decryption attempt on the `data` property (a missing or non-string
property makes the platform call throw). -/
def tryDecAES (secret : List Nat) : Option JsValue → Option (List Nat)
  | some (.vStr s) => decryptAES secret s
  | _ => none

def tryDecXOR (secret : List Nat) : Option JsValue → Option (List Nat)
  | some (.vStr s) => decryptXOR secret s
  | _ => none

/-- Result of the decryption try/catch in the load path: a recovered
plaintext, or an exception reaching the outer catch together with the
`onError` reports already made. -/
inductive DecPhase where
  | ok (plain : List Nat) (fb : Nat)
  | toOuter (errs : List ErrTag) (fb : Nat)

/-- The decryption try/catch of the load path, outer catch folded in: with
fallback enabled an inner throw retries XOR (one more `onFallback`); a
second throw reaches the outer catch which reports once; with fallback
disabled the inner catch reports and rethrows, so the outer catch reports
the same error again. -/
def decPhase (cfg : Config) (secret : List Nat) (dataF : Option JsValue) : DecPhase :=
  if cfg.hasAES then
    match tryDecAES secret dataF with
    | some p => .ok p 0
    | none =>
      if cfg.fallbackXor then
        match tryDecXOR secret dataF with
        | some p => .ok p 1
        | none => .toOuter [.cryptoThrew] 1
      else .toOuter [.cryptoThrew, .cryptoThrew] 0
  else if cfg.fallbackXor then
    match tryDecXOR secret dataF with
    | some p => .ok p 1
    | none => .toOuter [.cryptoThrew] 2
  else .toOuter [.noCrypto, .noCrypto] 0

/-- Decryption and plaintext parse of the load path; never touches the
backend, and every exception lands in the outer catch which resets the
visible value to the initial default. -/
def loadDecrypt (cfg : Config) (st : BState) (initialValue : JsValue)
    (parsed : JsValue) : OpOut :=
  match decPhase cfg (secretStr cfg) (getProp parsed dataKey) with
  | .toOuter errs fb => ⟨{ st with value := initialValue }, errs, fb, false, 0, false⟩
  | .ok plain fb =>
    match safeParse plain with
    | none => ⟨{ st with value := initialValue }, [.corruptedData], fb, false, 0, false⟩
    | some v => ⟨{ st with value := v }, [], fb, false, 0, false⟩

/-- Expiry check and decryption of a truthy parsed envelope (the tail of the
load effect). -/
def loadFinish (cfg : Config) (now : Nat) (st : BState) (initialValue : JsValue)
    (parsed : JsValue) : OpOut :=
  if ttlTruthy cfg.ttl && jsTruthyOpt (getProp parsed expiresKey) &&
      nowGtExpiresOpt now (getProp parsed expiresKey) then
    ⟨{ st with backend := none }, [], 0, false, 0, false⟩
  else loadDecrypt cfg st initialValue parsed

/-- The mount load effect: secret check, backend read, robust parse with
falsiness guard, TTL-gated expiry purge, decryption with fallback,
plaintext parse. -/
def load (cfg : Config) (now : Nat) (st : BState) (initialValue : JsValue) : OpOut :=
  if ¬ secretTruthy cfg then
    ⟨st, [.missingSecret], 0, false, 0, false⟩
  else
    match st.backend with
    | none => ⟨st, [], 0, false, 0, false⟩
    | some raw =>
      if raw = [] then ⟨st, [], 0, false, 0, false⟩
      else
        match safeParse raw with
        | none => ⟨st, [], 0, false, 0, false⟩
        | some parsed =>
          if ¬ jsTruthy parsed then ⟨st, [], 0, false, 0, false⟩
          else loadFinish cfg now st initialValue parsed

/-- The `remove` callback: unconditional `removeItem` and reset of the
visible value; the lock is not consulted or changed. -/
def removeOp (st : BState) (initialValue : JsValue) : OpOut :=
  ⟨⟨initialValue, st.lock, none⟩, [], 0, false, 0, false⟩

/-- Exception-aware value of the decrypt/re-encrypt statements of
`reencrypt` (which has a single try/catch and no fallback retry):
`undefined` when neither branch of an if/else-if ran. -/
inductive TryVal where
  | threw
  | undefVal
  | val (v : List Nat)

/-- The decrypt statement of `reencrypt`: strong path if available, else the
weak path if enabled, else `decrypted` stays undefined. -/
def reencDecrypt (cfg : Config) (secret : List Nat) (dataF : Option JsValue) : TryVal :=
  if cfg.hasAES then
    match tryDecAES secret dataF with
    | some p => .val p
    | none => .threw
  else if cfg.fallbackXor then
    match tryDecXOR secret dataF with
    | some p => .val p
    | none => .threw
  else .undefVal

/-- The re-encrypt statement of `reencrypt` under the new secret: on the
capability-absent, fallback-disabled configuration neither branch runs and
`encrypted` stays undefined. -/
def reencEncrypt (cfg : Config) (ns iv : List Nat) : TryVal → TryVal
  | .threw => .threw
  | .undefVal => .undefVal
  | .val p =>
    if cfg.hasAES then
      match encryptAES iv ns p with
      | some b => .val b
      | none => .threw
    else if cfg.fallbackXor then
      match encryptXOR ns p with
      | some b => .val b
      | none => .threw
    else .undefVal

/-- The `reencrypt` callback: current/new secret validation, backend read
and parse, decrypt with the current secret, re-encrypt with the new one,
envelope build and `setItem`, all under a single catch that reports through
`onError`. -/
def reencrypt (cfg : Config) (iv : List Nat) (now : Nat) (setFails : Bool)
    (st : BState) (newSecret : Option (List Nat)) : OpOut :=
  if ¬ secretTruthy cfg then
    ⟨st, [.missingSecret], 0, false, 0, false⟩
  else
    match newSecret with
    | none => ⟨st, [.weakSecret], 0, false, 0, false⟩
    | some ns =>
      if ns.length < 8 then ⟨st, [.weakSecret], 0, false, 0, false⟩
      else
        match st.backend with
        | none => ⟨st, [], 0, false, 0, false⟩
        | some raw =>
          if raw = [] then ⟨st, [], 0, false, 0, false⟩
          else
            match safeParse raw with
            | none => ⟨st, [], 0, false, 0, false⟩
            | some parsed =>
              if ¬ jsTruthy parsed then ⟨st, [], 0, false, 0, false⟩
              else
                match reencEncrypt cfg ns iv
                    (reencDecrypt cfg (secretStr cfg) (getProp parsed dataKey)) with
                | .threw => ⟨st, [.cryptoThrew], 0, false, 0, false⟩
                | .undefVal =>
                  let payload := stringifyPayload none
                    (if ttlTruthy cfg.ttl then some (now + cfg.ttl.getD 0) else none)
                  if setFails then ⟨st, [.backendSet], 0, false, 1, false⟩
                  else ⟨{ st with backend := some payload }, [], 0, true, 1, false⟩
                | .val blob =>
                  let payload := stringifyPayload (some blob)
                    (if ttlTruthy cfg.ttl then some (now + cfg.ttl.getD 0) else none)
                  if setFails then ⟨st, [.backendSet], 0, false, 1, false⟩
                  else ⟨{ st with backend := some payload }, [], 0, true, 1, false⟩

/-! ### Helper lemmas about the orchestrator -/

theorem btoa_bytes {l e : List Nat} (h : btoa l = some e) : ∀ c ∈ e, c < 256 := by
  unfold btoa at h
  split at h
  · next hall =>
    cases h
    intro c hc
    rcases b64encode_chars l (by simpa [List.all_eq_true] using hall) c hc with rfl | ⟨n, hn, rfl⟩
    · omega
    · have : ∀ m : Fin 64, b64Char m.val < 256 := by decide
      exact this ⟨n, hn⟩
  · cases h

theorem btoa_plain {l e : List Nat} (h : btoa l = some e) : ∀ c ∈ e, c ≠ 34 ∧ c ≠ 92 := by
  unfold btoa at h
  split at h
  · next hall =>
    cases h
    exact b64encode_plain l (by simpa [List.all_eq_true] using hall)
  · cases h

theorem encryptAES_blob_plain {iv secret data e : List Nat}
    (h : encryptAES iv secret data = some e) : ∀ c ∈ e, c ≠ 34 ∧ c ≠ 92 := by
  unfold encryptAES at h
  split at h
  · cases h
  · exact btoa_plain h

theorem encryptXOR_blob_plain {secret data e : List Nat}
    (h : encryptXOR secret data = some e) : ∀ c ∈ e, c ≠ 34 ∧ c ≠ 92 := by
  unfold encryptXOR at h
  split at h
  · cases h
  · exact btoa_plain h

theorem safeParse_natDigits (n : Nat) : safeParse (natDigits n) = some (.vNum (n : Int)) := by
  apply safeParse_of_parseValW
  have h := @parseValW_nat n [] (by simp [headNotDigit])
  simpa using h

/-- Unfolding of `load` once the envelope has been read and parsed truthy. -/
theorem load_eq_loadFinish {cfg : Config} {now : Nat} {st : BState}
    {init parsed : JsValue} {raw : List Nat}
    (hsec : secretTruthy cfg = true) (hb : st.backend = some raw) (hraw : raw ≠ [])
    (hp : safeParse raw = some parsed) (htr : jsTruthy parsed = true) :
    load cfg now st init = loadFinish cfg now st init parsed := by
  simp [load, hsec, hb, hraw, hp, htr]

theorem loadFinish_noTtl {cfg : Config} {now : Nat} {st : BState}
    {init parsed : JsValue} (httl : cfg.ttl = none) :
    loadFinish cfg now st init parsed = loadDecrypt cfg st init parsed := by
  unfold loadFinish
  rw [httl]
  simp [ttlTruthy]

theorem loadDecrypt_backend (cfg : Config) (st : BState) (init parsed : JsValue) :
    (loadDecrypt cfg st init parsed).st.backend = st.backend := by
  unfold loadDecrypt
  split
  · rfl
  · split <;> rfl

theorem loadDecrypt_threw (cfg : Config) (st : BState) (init parsed : JsValue) :
    (loadDecrypt cfg st init parsed).threw = false := by
  unfold loadDecrypt
  split
  · rfl
  · split <;> rfl

theorem loadFinish_threw (cfg : Config) (now : Nat) (st : BState) (init parsed : JsValue) :
    (loadFinish cfg now st init parsed).threw = false := by
  unfold loadFinish
  split
  · rfl
  · exact loadDecrypt_threw cfg st init parsed

theorem load_threw (cfg : Config) (now : Nat) (st : BState) (init : JsValue) :
    (load cfg now st init).threw = false := by
  unfold load
  split
  · rfl
  · split
    · rfl
    · split
      · rfl
      · split
        · rfl
        · split
          · rfl
          · exact loadFinish_threw _ _ _ _ _

theorem decPhase_aes {cfg : Config} (hA : cfg.hasAES = true) {s blob p : List Nat}
    (hdec : decryptAES s blob = some p) :
    decPhase cfg s (some (.vStr blob)) = .ok p 0 := by
  unfold decPhase tryDecAES
  rw [hA]
  simp [hdec]

theorem decPhase_xor {cfg : Config} (hA : cfg.hasAES = false)
    (hf : cfg.fallbackXor = true) {s blob p : List Nat}
    (hdec : decryptXOR s blob = some p) :
    decPhase cfg s (some (.vStr blob)) = .ok p 1 := by
  unfold decPhase tryDecXOR
  rw [hA, hf]
  simp [hdec]

/-! ### Claims -/

/-- C9: `remove()` deletes the key from the backend and resets the visible
value to the initial default unconditionally; the WriteLock is neither
consulted nor modified, so a removal issued while a save is in flight
(lock held) is neither blocked nor dropped. The state is quantified over an
arbitrary lock value, covering the in-flight-save case. -/
theorem C9_remove_unconditional (st : BState) (init : JsValue) :
    (removeOp st init).st.backend = none ∧ (removeOp st init).st.value = init ∧
    (removeOp st init).st.lock = st.lock ∧ (removeOp st init).errs = [] ∧
    (removeOp st init).threw = false ∧ (removeOp st init).setCalls = 0 :=
  ⟨rfl, rfl, rfl, rfl, rfl, rfl⟩

/-- C4: `save` fails fast. With no secret bound (undefined or empty) the
only effect is a MissingSecret report; with a secret bound but a value that
`JSON.stringify` cannot serialize, the only effect is a NotSerializable
report. In both cases no fallback fires, `setItem` is never called, nothing
is thrown, and the state — visible value, lock and backend — is unchanged,
so the error precedes any cryptographic or backend work. -/
theorem C4_save_fails_fast (cfg : Config) (iv : List Nat) (now : Nat)
    (setFails : Bool) (st : BState) (val : JsValue) :
    (secretTruthy cfg = false →
      save cfg iv now setFails st val =
        ⟨st, [.missingSecret], 0, false, 0, false⟩) ∧
    (secretTruthy cfg = true → isSerializable val = false →
      save cfg iv now setFails st val =
        ⟨st, [.notSerializable], 0, false, 0, false⟩) := by
  constructor
  · intro h
    unfold save
    simp [h]
  · intro h hser
    unfold save
    simp [h, hser]

theorem C4_witness :
    save ⟨none, none, true, true⟩ [] 0 false ⟨.vNull, false, none⟩ (.vNum 0) =
      ⟨⟨.vNull, false, none⟩, [.missingSecret], 0, false, 0, false⟩ ∧
    save ⟨some [97, 98, 99, 100, 101, 102, 103, 104], none, true, true⟩ [] 0 false
        ⟨.vNull, false, none⟩ (.vBigInt 1) =
      ⟨⟨.vNull, false, none⟩, [.notSerializable], 0, false, 0, false⟩ :=
  ⟨(C4_save_fails_fast _ _ _ _ _ _).1 rfl, (C4_save_fails_fast _ _ _ _ _ _).2 rfl rfl⟩

/-- C8: when encryption succeeds but the backend `setItem` throws, `save`
reports the backend error through `onError`, keeps the already-visible
optimistic value (no rollback), leaves the backend cell unchanged, releases
the lock, and does not propagate the exception. -/
theorem C8_save_backend_failure (cfg : Config) (iv : List Nat) (now : Nat)
    (st : BState) (val : JsValue) (blob : List Nat) (fb : Nat)
    (hsec : secretTruthy cfg = true) (hser : isSerializable val = true)
    (hlock : st.lock = false)
    (henc : encPhase cfg iv (secretStr cfg) (jsonStr val) = .ok blob fb) :
    save cfg iv now true st val =
      ⟨⟨val, false, st.backend⟩, [.backendSet], fb, false, 1, false⟩ := by
  unfold save
  simp [hsec, hser, hlock, henc]

theorem C8_witness :
    save ⟨some [97, 98, 99, 100, 101, 102, 103, 104], none, true, true⟩
        (List.replicate 12 0) 7 true ⟨.vNull, false, some [1, 2]⟩ (.vNum 1) =
      ⟨⟨.vNum 1, false, some [1, 2]⟩, [.backendSet], 0, false, 1, false⟩ :=
  C8_save_backend_failure ⟨some [97, 98, 99, 100, 101, 102, 103, 104], none, true, true⟩
    (List.replicate 12 0) 7 ⟨.vNull, false, some [1, 2]⟩ (.vNum 1)
    (b64encode (jsonStr (ivDataObj (List.replicate 12 0)
      (subtleSeal [97, 98, 99, 100, 101, 102, 103, 104] (List.replicate 12 0) [49]))))
    0 rfl rfl rfl (by rfl)

/-- C10: the strong-path key derivation rejects secrets shorter than 8
characters for every operation, so with AES capability present and
fallback enabled, a `save` under a 1-to-7-character secret silently falls
back to the weak XOR cipher: `onFallback` fires once, the XOR blob is
written to the backend, and no invalid-secret error is ever reported. -/
theorem C10_short_secret_silent_xor (cfg : Config) (iv : List Nat) (now : Nat)
    (st : BState) (val : JsValue) (xb : List Nat)
    (hAES : cfg.hasAES = true) (hfb : cfg.fallbackXor = true)
    (hlen1 : 1 ≤ (secretStr cfg).length) (hlen7 : (secretStr cfg).length ≤ 7)
    (hsec : secretTruthy cfg = true)
    (hser : isSerializable val = true) (hlock : st.lock = false)
    (hxor : encryptXOR (secretStr cfg) (jsonStr val) = some xb) :
    deriveKey (secretStr cfg) = none ∧
    save cfg iv now false st val =
      ⟨⟨val, false, some (stringifyPayload (some xb)
          (if ttlTruthy cfg.ttl then some (now + cfg.ttl.getD 0) else none))⟩,
        [], 1, false, 1, false⟩ := by
  have hdk : deriveKey (secretStr cfg) = none := by
    unfold deriveKey
    rw [if_pos]
    omega
  refine ⟨hdk, ?_⟩
  have hAESfail : encryptAES iv (secretStr cfg) (jsonStr val) = none := by
    unfold encryptAES
    rw [hdk]
  have henc : encPhase cfg iv (secretStr cfg) (jsonStr val) = .ok xb 1 := by
    unfold encPhase
    rw [hAES, hAESfail]
    simp [hfb, hxor]
  unfold save
  simp [hsec, hser, hlock, henc]

theorem C10_witness :
    deriveKey [115, 104, 111, 114, 116] = none ∧
    save ⟨some [115, 104, 111, 114, 116], none, true, true⟩ [] 0 false
        ⟨.vNull, false, none⟩ (.vNum 1) =
      ⟨⟨.vNum 1, false, some (stringifyPayload (some [81, 103, 61, 61])
          (if ttlTruthy none then some (0 + (none : Option Nat).getD 0) else none))⟩,
        [], 1, false, 1, false⟩ :=
  C10_short_secret_silent_xor ⟨some [115, 104, 111, 114, 116], none, true, true⟩ [] 0
    ⟨.vNull, false, none⟩ (.vNum 1) [81, 103, 61, 61]
    rfl rfl (by decide) (by decide) rfl rfl rfl (by rfl)

/-- C3 (evaluation at the failing input): with AES capability absent,
fallback enabled and secret "a", saving the one-character string U+0100
makes both `encryptXOR` attempts throw (btoa rejects code units above 255):
the exception escapes `save` uncaught and the lock is left permanently
held, so a subsequent save of a perfectly good value is silently dropped —
no write, no error. The lock is not released on this error path, contrary
to the claim. -/
theorem C3_lock_leak_eval :
    save ⟨some [97], none, true, false⟩ [] 0 false ⟨.vNum 0, false, none⟩
        (.vStr [256]) =
      ⟨⟨.vStr [256], true, none⟩, [], 2, false, 0, true⟩ ∧
    save ⟨some [97], none, true, false⟩ [] 0 false ⟨.vStr [256], true, none⟩
        (.vNum 1) =
      ⟨⟨.vStr [256], true, none⟩, [], 0, false, 0, false⟩ :=
  ⟨rfl, rfl⟩

/-- C7: a load never lets an exception escape, whatever string sits in the
backend (the outer catch converts every throw into an `onError` report plus
a reset to the initial value, and `safeParse` returns undefined rather than
throwing); and when the backend string fails to parse as JSON the load is a
no-op, so the visible value remains the mount-time initial default. -/
theorem C7_load_total (cfg : Config) (now : Nat) (st : BState)
    (init : JsValue) (raw : List Nat) (hb : st.backend = some raw) :
    (load cfg now st init).threw = false ∧
    (safeParse raw = none → st.value = init →
      (load cfg now st init).st.value = init ∧
      (load cfg now st init).st.backend = st.backend) := by
  refine ⟨load_threw cfg now st init, ?_⟩
  intro hparse hval
  unfold load
  split
  · exact ⟨hval, rfl⟩
  · simp only [hb]
    split
    · exact ⟨hval, hb⟩
    · simp only [hparse]
      exact ⟨hval, hb⟩

theorem C7_witness :
    (load ⟨some [107, 101, 121, 115, 101, 99, 114, 101], none, true, false⟩ 0
        ⟨.vNum 0, false, some [104, 105]⟩ (.vNum 0)).threw = false ∧
    (load ⟨some [107, 101, 121, 115, 101, 99, 114, 101], none, true, false⟩ 0
        ⟨.vNum 0, false, some [104, 105]⟩ (.vNum 0)).st.value = .vNum 0 ∧
    (load ⟨some [107, 101, 121, 115, 101, 99, 114, 101], none, true, false⟩ 0
        ⟨.vNum 0, false, some [104, 105]⟩ (.vNum 0)).st.backend = some [104, 105] := by
  have h := C7_load_total ⟨some [107, 101, 121, 115, 101, 99, 114, 101], none, true, false⟩
    0 ⟨.vNum 0, false, some [104, 105]⟩ (.vNum 0) [104, 105] rfl
  have hgarbage : safeParse [104, 105] = none := by
    simp [safeParse, parseVal, parseNum, parseNumNat]
  exact ⟨h.1, (h.2 hgarbage rfl).1, (h.2 hgarbage rfl).2⟩

/-- C1 counterexample: as stated the claim fails on both cipher pairs. On
the strong pair, a one-character secret makes `deriveKey` throw (its floor
is 8 characters for every operation), so encryption of any plaintext under
secret "a" throws and no round trip exists; on the weak pair, encrypting
the plaintext U+0100 under secret "a" throws inside `btoa`, which rejects
code units above 255, so the round trip fails for that plaintext. -/
theorem C1_counterexample :
    encryptAES (List.replicate 12 0) [97] [104, 105] = none ∧
    encryptXOR [97] [256] = none := ⟨rfl, rfl⟩

/-- C1 (amended): the weak pair round-trips for every secret of at least
one character and every plaintext on which encryption succeeds (btoa
restricts the XOR stream to code units below 256); the strong pair
round-trips for every secret of at least 8 characters — shorter secrets
are rejected by `deriveKey` — and every plaintext and fresh iv, with
encryption always succeeding. -/
theorem C1_roundtrip_amended :
    (∀ secret data e : List Nat, (∀ c ∈ secret, c < 65536) →
      (∀ c ∈ data, c < 65536) → 1 ≤ secret.length →
      encryptXOR secret data = some e → decryptXOR secret e = some data) ∧
    (∀ iv secret data : List Nat, 8 ≤ secret.length →
      ∃ e, encryptAES iv secret data = some e ∧ decryptAES secret e = some data) := by
  constructor
  · intro secret data e hsec hdata _ he
    exact decryptXOR_encryptXOR hsec hdata he
  · intro iv secret data h8
    exact ⟨_, encryptAES_eq h8 iv data,
      decryptAES_encryptAES (encryptAES_eq h8 iv data)⟩

theorem C1_witness :
    decryptXOR [107] [87, 103, 61, 61] = some [49] ∧
    (∃ e, encryptAES (List.replicate 12 0) [97, 98, 99, 100, 101, 102, 103, 104] [49] =
        some e ∧
      decryptAES [97, 98, 99, 100, 101, 102, 103, 104] e = some [49]) :=
  ⟨C1_roundtrip_amended.1 [107] [49] [87, 103, 61, 61] (by decide) (by decide)
      (by decide) rfl,
    C1_roundtrip_amended.2 (List.replicate 12 0) [97, 98, 99, 100, 101, 102, 103, 104]
      [49] (by decide)⟩

/-- C2 counterexample: the expiry purge is gated on the binding having a
truthy `ttl` option. A binding configured without `ttl` (weak path, secret
"k") that loads an envelope whose `expires` (5) is long past (now = 100)
does not treat it as absent: the envelope is decrypted and its value 1
becomes visible, and the key is not removed from the backend. -/
theorem C2_counterexample :
    load ⟨some [107], none, true, false⟩ 100
        ⟨.vNum 0, false, some (stringifyPayload (some [87, 103, 61, 61]) (some 5))⟩
        (.vNum 0) =
      ⟨⟨.vNum (Int.ofNat 1), false,
          some (stringifyPayload (some [87, 103, 61, 61]) (some 5))⟩,
        [], 1, false, 0, false⟩ := by
  have hparse := @safeParse_payload_dataExp [87, 103, 61, 61] 5 (by decide)
  rw [load_eq_loadFinish (by decide) rfl (by decide) hparse (by decide), loadFinish_noTtl rfl]
  unfold loadDecrypt
  rw [getProp_payloadExp_data]
  rw [show secretStr ⟨some [107], none, true, false⟩ = [107] from rfl]
  rw [decPhase_xor rfl rfl (by rfl : decryptXOR [107] [87, 103, 61, 61] = some [49])]
  have h49 : safeParse [49] = some (.vNum (Int.ofNat 1)) := safeParse_natDigits 1
  simp [h49]

/-- C2 (amended): expiry is enforced only when the binding itself has a
truthy `ttl` configured. Under that condition and a truthy `expires`
property: a past `expires` makes `load` purge the key from the backend and
return without touching the visible value (treated as absent); a
non-elapsed `expires` proceeds to the normal decryption path with the
backend untouched; and an envelope with no `expires` property never
expires — the load result does not depend on the clock at all. -/
theorem C2_expiry_ttl_gated :
    (∀ (cfg : Config) (now : Nat) (st : BState) (init parsed : JsValue)
        (raw : List Nat) (e : Int),
      secretTruthy cfg = true → st.backend = some raw → raw ≠ [] →
      safeParse raw = some parsed → jsTruthy parsed = true →
      ttlTruthy cfg.ttl = true →
      getProp parsed expiresKey = some (.vNum e) → e ≠ 0 → (now : Int) > e →
      load cfg now st init = ⟨{ st with backend := none }, [], 0, false, 0, false⟩) ∧
    (∀ (cfg : Config) (now : Nat) (st : BState) (init parsed : JsValue)
        (raw : List Nat) (e : Int),
      secretTruthy cfg = true → st.backend = some raw → raw ≠ [] →
      safeParse raw = some parsed → jsTruthy parsed = true →
      getProp parsed expiresKey = some (.vNum e) → ¬ (now : Int) > e →
      load cfg now st init = loadDecrypt cfg st init parsed ∧
        (load cfg now st init).st.backend = st.backend) ∧
    (∀ (cfg : Config) (now1 now2 : Nat) (st : BState) (init parsed : JsValue)
        (raw : List Nat),
      secretTruthy cfg = true → st.backend = some raw → raw ≠ [] →
      safeParse raw = some parsed → jsTruthy parsed = true →
      getProp parsed expiresKey = none →
      load cfg now1 st init = load cfg now2 st init) := by
  refine ⟨?_, ?_, ?_⟩
  · intro cfg now st init parsed raw e hsec hb hraw hp htr httl hexp he0 hgt
    rw [load_eq_loadFinish hsec hb hraw hp htr]
    unfold loadFinish
    rw [if_pos]
    rw [httl, hexp]
    simp only [jsTruthyOpt, jsTruthy, nowGtExpiresOpt, toNumber]
    simp [he0, hgt]
  · intro cfg now st init parsed raw e hsec hb hraw hp htr hexp hngt
    have hload : load cfg now st init = loadDecrypt cfg st init parsed := by
      rw [load_eq_loadFinish hsec hb hraw hp htr]
      unfold loadFinish
      rw [if_neg]
      rw [hexp]
      simp only [nowGtExpiresOpt, toNumber]
      simp [hngt]
    exact ⟨hload, by rw [hload, loadDecrypt_backend, hb]⟩
  · intro cfg now1 now2 st init parsed raw hsec hb hraw hp htr hexp
    rw [load_eq_loadFinish hsec hb hraw hp htr, load_eq_loadFinish hsec hb hraw hp htr]
    unfold loadFinish
    rw [hexp]
    simp [jsTruthyOpt]

/-- C2 witness: a binding with ttl = 10 and secret "k" loading the stored
envelope `{"data":"WgA==","expires":5}` at time 100 purges the key (expires
elapsed) and leaves the visible value at its initial state. -/
theorem C2_witness :
    load ⟨some [107], some 10, true, false⟩ 100
        ⟨.vNum 0, false, some (stringifyPayload (some [87, 103, 61, 61]) (some 5))⟩
        (.vNum 0) =
      ⟨⟨.vNum 0, false, none⟩, [], 0, false, 0, false⟩ :=
  C2_expiry_ttl_gated.1 ⟨some [107], some 10, true, false⟩ 100
    ⟨.vNum 0, false, some (stringifyPayload (some [87, 103, 61, 61]) (some 5))⟩
    (.vNum 0)
    (.vObj [(dataKey, .vStr [87, 103, 61, 61]), (expiresKey, .vNum (Int.ofNat 5))])
    (stringifyPayload (some [87, 103, 61, 61]) (some 5)) (Int.ofNat 5)
    (by decide) rfl (by decide)
    (safeParse_payload_dataExp 5 (by decide)) rfl (by decide)
    rfl (by decide) (by decide)

/-- Evaluation of `reencrypt` past its validations and envelope read. -/
theorem reencrypt_eq {cfg : Config} {iv : List Nat} {now : Nat} {setFails : Bool}
    {st : BState} {ns raw : List Nat} {parsed : JsValue}
    (hsec : secretTruthy cfg = true) (hlen : ¬ ns.length < 8)
    (hb : st.backend = some raw) (hraw : raw ≠ [])
    (hp : safeParse raw = some parsed) (htr : jsTruthy parsed = true) :
    reencrypt cfg iv now setFails st (some ns) =
      match reencEncrypt cfg ns iv
          (reencDecrypt cfg (secretStr cfg) (getProp parsed dataKey)) with
      | .threw => ⟨st, [.cryptoThrew], 0, false, 0, false⟩
      | .undefVal =>
        if setFails then ⟨st, [.backendSet], 0, false, 1, false⟩
        else ⟨{ st with backend := some (stringifyPayload none
            (if ttlTruthy cfg.ttl then some (now + cfg.ttl.getD 0) else none)) },
          [], 0, true, 1, false⟩
      | .val blob =>
        if setFails then ⟨st, [.backendSet], 0, false, 1, false⟩
        else ⟨{ st with backend := some (stringifyPayload (some blob)
            (if ttlTruthy cfg.ttl then some (now + cfg.ttl.getD 0) else none)) },
          [], 0, true, 1, false⟩ := by
  unfold reencrypt
  simp [hsec, hlen, hb, hraw, hp, htr]

/-- C5 counterexample: on a binding whose platform lacks AES and whose
fallback is disabled, a `reencrypt` call with a valid 8-character new secret
reports no error at all, yet replaces the stored envelope with the empty
object "\x7b\x7d" (both crypto statements leave their variable undefined and
`JSON.stringify` drops the undefined `data` field), and even fires
`onReencrypt`. The spec says any failure reports an error and leaves the
backend untouched. -/
theorem C5_counterexample :
    reencrypt ⟨some [97, 98, 99, 100, 101, 102, 103, 104], none, false, false⟩
        (List.replicate 12 0) 100 false
        ⟨.vNum 0, false, some (stringifyPayload (some [87, 103, 61, 61]) none)⟩
        (some [104, 105, 106, 107, 108, 109, 110, 111]) =
      ⟨⟨.vNum 0, false, some [123, 125]⟩, [], 0, true, 1, false⟩ := by
  have hparse := @safeParse_payload_data [87, 103, 61, 61] (by decide)
  rw [reencrypt_eq (by decide) (by decide) rfl (by decide) hparse rfl]
  rfl

/-- C5 (amended): `reencrypt` reports `missingSecret` when no current secret
is bound, `weakSecret` when the new secret is absent or shorter than 8
characters, every run that reports an error leaves the backend unchanged —
but the all-or-nothing guarantee does not extend to error-free runs: on a
capability-absent, fallback-disabled binding a validated rotation silently
overwrites the envelope with the serialization of an empty payload. -/
theorem C5_reencrypt_failures_amended :
    (∀ (cfg : Config) (iv : List Nat) (now : Nat) (setFails : Bool) (st : BState)
        (ns : Option (List Nat)), secretTruthy cfg = false →
      reencrypt cfg iv now setFails st ns = ⟨st, [.missingSecret], 0, false, 0, false⟩) ∧
    (∀ (cfg : Config) (iv : List Nat) (now : Nat) (setFails : Bool) (st : BState),
      secretTruthy cfg = true →
      reencrypt cfg iv now setFails st none = ⟨st, [.weakSecret], 0, false, 0, false⟩) ∧
    (∀ (cfg : Config) (iv : List Nat) (now : Nat) (setFails : Bool) (st : BState)
        (ns : List Nat), secretTruthy cfg = true → ns.length < 8 →
      reencrypt cfg iv now setFails st (some ns) = ⟨st, [.weakSecret], 0, false, 0, false⟩) ∧
    (∀ (cfg : Config) (iv : List Nat) (now : Nat) (setFails : Bool) (st : BState)
        (ns : Option (List Nat)),
      (reencrypt cfg iv now setFails st ns).errs ≠ [] →
      (reencrypt cfg iv now setFails st ns).st.backend = st.backend) ∧
    (∀ (cfg : Config) (iv : List Nat) (now : Nat) (st : BState)
        (ns raw : List Nat) (parsed : JsValue),
      secretTruthy cfg = true → cfg.hasAES = false → cfg.fallbackXor = false →
      8 ≤ ns.length → st.backend = some raw → raw ≠ [] →
      safeParse raw = some parsed → jsTruthy parsed = true →
      reencrypt cfg iv now false st (some ns) =
        ⟨{ st with backend := some (stringifyPayload none
            (if ttlTruthy cfg.ttl then some (now + cfg.ttl.getD 0) else none)) },
          [], 0, true, 1, false⟩) := by
  refine ⟨?_, ?_, ?_, ?_, ?_⟩
  · intro cfg iv now setFails st ns h
    unfold reencrypt
    simp [h]
  · intro cfg iv now setFails st h
    unfold reencrypt
    simp [h]
  · intro cfg iv now setFails st ns h hlt
    unfold reencrypt
    simp [h, hlt]
  · intro cfg iv now setFails st ns
    unfold reencrypt
    dsimp only
    repeat' split
    all_goals first
      | exact fun h => absurd rfl h
      | exact fun x => rfl
  · intro cfg iv now st ns raw parsed hsec haes hfb hlen hb hraw hp htr
    rw [reencrypt_eq hsec (Nat.not_lt.mpr hlen) hb hraw hp htr]
    simp [reencDecrypt, reencEncrypt, haes, hfb]

/-- C5 witness: a bound secret "abcdefgh" with a two-character new secret
"hi" makes `reencrypt` report `weakSecret` and leave state and backend
untouched. -/
theorem C5_witness :
    reencrypt ⟨some [97, 98, 99, 100, 101, 102, 103, 104], none, true, false⟩
        (List.replicate 12 0) 100 false ⟨.vNum 0, false, some [1, 2, 3]⟩
        (some [104, 105]) =
      ⟨⟨.vNum 0, false, some [1, 2, 3]⟩, [.weakSecret], 0, false, 0, false⟩ :=
  C5_reencrypt_failures_amended.2.2.1
    ⟨some [97, 98, 99, 100, 101, 102, 103, 104], none, true, false⟩
    (List.replicate 12 0) 100 false ⟨.vNum 0, false, some [1, 2, 3]⟩
    [104, 105] (by decide) (by decide)

/-! ### Helper lemmas for rotation -/

theorem stringifyPayload_ne_nil (d : Option (List Nat)) (x : Option Nat) :
    stringifyPayload d x ≠ [] := by
  simp [stringifyPayload, jsonStr]

theorem secretTruthy_mk {s : List Nat} (t : Option Nat) (f a : Bool) (h : s ≠ []) :
    secretTruthy ⟨some s, t, f, a⟩ = true := by
  simp [secretTruthy, h]

theorem ne_nil_of_eight {s : List Nat} (h : 8 ≤ s.length) : s ≠ [] := by
  intro hnil
  rw [hnil] at h
  simp at h

/-- The visible value after a load whose envelope carries the blob `e` and
whose decryption phase recovers the plaintext `data`. -/
theorem load_value_of_blob {cfg : Config} {st : BState} (init : JsValue)
    {e data : List Nat} {fbn : Nat}
    (hsec : secretTruthy cfg = true) (httl : cfg.ttl = none)
    (hb : st.backend = some (stringifyPayload (some e) none))
    (hplain : ∀ c ∈ e, c ≠ 34 ∧ c ≠ 92)
    (hdp : decPhase cfg (secretStr cfg) (some (.vStr e)) = .ok data fbn)
    (now : Nat) :
    (load cfg now st init).st.value =
      match safeParse data with | none => init | some v => v := by
  rw [load_eq_loadFinish hsec hb (stringifyPayload_ne_nil _ _)
      (safeParse_payload_data hplain) rfl, loadFinish_noTtl httl]
  unfold loadDecrypt
  rw [getProp_payload_data, hdp]
  cases h : safeParse data <;> simp [h]

/-- In the ideal AES model two seals of the same plaintext produce the same
blob only under the same key and iv. -/
theorem encryptAES_same_blob {iv iv2 secret ns data e : List Nat}
    (h8 : 8 ≤ secret.length) (h8n : 8 ≤ ns.length)
    (he : encryptAES iv secret data = some e)
    (he2 : encryptAES iv2 ns data = some e) :
    ns = secret ∧ iv2 = iv := by
  rw [encryptAES_eq h8 iv data] at he
  rw [encryptAES_eq h8n iv2 data] at he2
  have hbe : b64encode (jsonStr (ivDataObj iv (subtleSeal secret iv data))) =
      b64encode (jsonStr (ivDataObj iv2 (subtleSeal ns iv2 data))) := by
    rw [Option.some_inj.mp he, Option.some_inj.mp he2]
  have hd1 := b64decode_b64encode (jsonStr (ivDataObj iv (subtleSeal secret iv data)))
    (jsonStr_ivData_ascii _ _)
  rw [hbe, b64decode_b64encode _ (jsonStr_ivData_ascii _ _)] at hd1
  have hjson := Option.some_inj.mp hd1
  have hp := safeParse_ivDataObj iv2 (subtleSeal ns iv2 data)
  rw [hjson, safeParse_ivDataObj] at hp
  have hobj := Option.some_inj.mp hp
  unfold ivDataObj at hobj
  simp only [JsValue.vObj.injEq, List.cons.injEq, Prod.mk.injEq, JsValue.vArr.injEq,
    and_true, true_and] at hobj
  obtain ⟨hiv, hseal⟩ := hobj
  have hiv2 : iv = iv2 := numArr_inj hiv
  have hseal2 : subtleSeal secret iv data = subtleSeal ns iv2 data := numArr_inj hseal
  rw [← hiv2] at hseal2
  unfold subtleSeal at hseal2
  injection hseal2 with hlen htail
  exact ⟨(List.append_cancel_right htail).symm, hiv2.symm⟩

/-- The serialized single-field payload determines its blob. -/
theorem stringifyPayload_data_inj {e e2 : List Nat}
    (h1 : ∀ c ∈ e, c ≠ 34 ∧ c ≠ 92) (h2 : ∀ c ∈ e2, c ≠ 34 ∧ c ≠ 92)
    (h : stringifyPayload (some e) none = stringifyPayload (some e2) none) :
    e = e2 := by
  have p1 := safeParse_payload_data h1
  rw [h, safeParse_payload_data h2] at p1
  have h3 := Option.some_inj.mp p1
  simp only [JsValue.vObj.injEq, List.cons.injEq, Prod.mk.injEq, JsValue.vStr.injEq,
    and_true, true_and] at h3
  exact h3.symm

/-- C6 counterexample: on the XOR fallback path, rotating to a new secret
equal to the old one (a valid 8-character secret) succeeds — `onReencrypt`
fires, the envelope is rewritten — yet the stored envelope string is
byte-for-byte identical to the one before rotation, contradicting "the
stored envelope string in the backend changes". -/
theorem C6_counterexample :
    reencrypt ⟨some [97, 98, 99, 100, 101, 102, 103, 104], none, true, false⟩
        (List.replicate 12 0) 100 false
        ⟨.vNum 0, false, some (stringifyPayload (some [85, 65, 61, 61]) none)⟩
        (some [97, 98, 99, 100, 101, 102, 103, 104]) =
      ⟨⟨.vNum 0, false, some (stringifyPayload (some [85, 65, 61, 61]) none)⟩,
        [], 0, true, 1, false⟩ := by
  have hparse := @safeParse_payload_data [85, 65, 61, 61] (by decide)
  rw [reencrypt_eq (by decide) (by decide) rfl (by decide) hparse rfl]
  rfl

/-- C6 (amended): a successful rotation preserves the logical value — after
`reencrypt(newSecret)` a load bound to the new secret sees the same visible
value as a load before rotation — on both the AES path and the XOR fallback
path; on the AES path the stored envelope string moreover changes whenever
the new secret or the fresh iv differs from the old ones (on the XOR path it
can remain identical, see the counterexample). -/
theorem C6_rotation_amended :
    (∀ (fb : Bool) (secret ns iv iv2 data e e2 : List Nat) (st : BState)
        (init : JsValue) (now now2 : Nat),
      8 ≤ secret.length → 8 ≤ ns.length →
      encryptAES iv secret data = some e →
      encryptAES iv2 ns data = some e2 →
      st.backend = some (stringifyPayload (some e) none) →
      ¬ (ns = secret ∧ iv2 = iv) →
      reencrypt ⟨some secret, none, fb, true⟩ iv2 now false st (some ns) =
        ⟨{ st with backend := some (stringifyPayload (some e2) none) },
          [], 0, true, 1, false⟩ ∧
      (load ⟨some ns, none, fb, true⟩ now2
          { st with backend := some (stringifyPayload (some e2) none) } init).st.value =
        (load ⟨some secret, none, fb, true⟩ now2 st init).st.value ∧
      stringifyPayload (some e2) none ≠ stringifyPayload (some e) none) ∧
    (∀ (secret ns data e e2 iv : List Nat) (st : BState) (init : JsValue)
        (now now2 : Nat),
      8 ≤ secret.length → 8 ≤ ns.length →
      (∀ c ∈ secret, c < 65536) → (∀ c ∈ ns, c < 65536) → (∀ c ∈ data, c < 65536) →
      encryptXOR secret data = some e →
      encryptXOR ns data = some e2 →
      st.backend = some (stringifyPayload (some e) none) →
      reencrypt ⟨some secret, none, true, false⟩ iv now false st (some ns) =
        ⟨{ st with backend := some (stringifyPayload (some e2) none) },
          [], 0, true, 1, false⟩ ∧
      (load ⟨some ns, none, true, false⟩ now2
          { st with backend := some (stringifyPayload (some e2) none) } init).st.value =
        (load ⟨some secret, none, true, false⟩ now2 st init).st.value) := by
  constructor
  · intro fb secret ns iv iv2 data e e2 st init now now2 h8 h8n he he2 hb hne
    refine ⟨?_, ?_, ?_⟩
    · rw [reencrypt_eq (secretTruthy_mk none fb true (ne_nil_of_eight h8))
        (Nat.not_lt.mpr h8n) hb (stringifyPayload_ne_nil _ _)
        (safeParse_payload_data (encryptAES_blob_plain he)) rfl]
      simp [getProp_payload_data, reencDecrypt, reencEncrypt, tryDecAES, secretStr,
        decryptAES_encryptAES he, he2, ttlTruthy]
    · have hdp2 : decPhase ⟨some ns, none, fb, true⟩
          (secretStr ⟨some ns, none, fb, true⟩) (some (.vStr e2)) = .ok data 0 :=
        decPhase_aes rfl (decryptAES_encryptAES he2)
      have hdp1 : decPhase ⟨some secret, none, fb, true⟩
          (secretStr ⟨some secret, none, fb, true⟩) (some (.vStr e)) = .ok data 0 :=
        decPhase_aes rfl (decryptAES_encryptAES he)
      have hv2 := load_value_of_blob init (secretTruthy_mk none fb true (ne_nil_of_eight h8n))
        rfl (show ({ st with backend := some (stringifyPayload (some e2) none) } : BState).backend =
          some (stringifyPayload (some e2) none) from rfl)
        (encryptAES_blob_plain he2) hdp2 now2
      have hv1 := load_value_of_blob init (secretTruthy_mk none fb true (ne_nil_of_eight h8))
        rfl hb (encryptAES_blob_plain he) hdp1 now2
      exact hv2.trans hv1.symm
    · intro hpe
      have hblob : e2 = e := stringifyPayload_data_inj
        (encryptAES_blob_plain he2) (encryptAES_blob_plain he) hpe
      rw [hblob] at he2
      exact hne (encryptAES_same_blob h8 h8n he he2)
  · intro secret ns data e e2 iv st init now now2 h8 h8n hsb hnb hdb he he2 hb
    constructor
    · rw [reencrypt_eq (secretTruthy_mk none true false (ne_nil_of_eight h8))
        (Nat.not_lt.mpr h8n) hb (stringifyPayload_ne_nil _ _)
        (safeParse_payload_data (encryptXOR_blob_plain he)) rfl]
      simp [getProp_payload_data, reencDecrypt, reencEncrypt, tryDecXOR, secretStr,
        decryptXOR_encryptXOR hsb hdb he, he2, ttlTruthy]
    · have hdp2 : decPhase ⟨some ns, none, true, false⟩
          (secretStr ⟨some ns, none, true, false⟩) (some (.vStr e2)) = .ok data 1 :=
        decPhase_xor rfl rfl (decryptXOR_encryptXOR hnb hdb he2)
      have hdp1 : decPhase ⟨some secret, none, true, false⟩
          (secretStr ⟨some secret, none, true, false⟩) (some (.vStr e)) = .ok data 1 :=
        decPhase_xor rfl rfl (decryptXOR_encryptXOR hsb hdb he)
      have hv2 := load_value_of_blob init (secretTruthy_mk none true false (ne_nil_of_eight h8n))
        rfl (show ({ st with backend := some (stringifyPayload (some e2) none) } : BState).backend =
          some (stringifyPayload (some e2) none) from rfl)
        (encryptXOR_blob_plain he2) hdp2 now2
      have hv1 := load_value_of_blob init (secretTruthy_mk none true false (ne_nil_of_eight h8))
        rfl hb (encryptXOR_blob_plain he) hdp1 now2
      exact hv2.trans hv1.symm

/-- C6 witness: rotating the XOR binding from "abcdefgh" to "ijklmnop" over
the stored envelope of the serialized value 1 rewrites the envelope to the
blob under the new secret, and a load bound to the new secret sees the same
visible value as a load before rotation. -/
theorem C6_witness :
    reencrypt ⟨some [97, 98, 99, 100, 101, 102, 103, 104], none, true, false⟩
        (List.replicate 12 0) 100 false
        ⟨.vNum 0, false, some (stringifyPayload (some [85, 65, 61, 61]) none)⟩
        (some [105, 106, 107, 108, 109, 110, 111, 112]) =
      ⟨⟨.vNum 0, false, some (stringifyPayload (some [87, 65, 61, 61]) none)⟩,
        [], 0, true, 1, false⟩ ∧
    (load ⟨some [105, 106, 107, 108, 109, 110, 111, 112], none, true, false⟩ 200
        ⟨.vNum 0, false, some (stringifyPayload (some [87, 65, 61, 61]) none)⟩
        (.vNum 0)).st.value =
      (load ⟨some [97, 98, 99, 100, 101, 102, 103, 104], none, true, false⟩ 200
        ⟨.vNum 0, false, some (stringifyPayload (some [85, 65, 61, 61]) none)⟩
        (.vNum 0)).st.value :=
  C6_rotation_amended.2 [97, 98, 99, 100, 101, 102, 103, 104]
    [105, 106, 107, 108, 109, 110, 111, 112] [49] [85, 65, 61, 61]
    [87, 65, 61, 61] (List.replicate 12 0)
    ⟨.vNum 0, false, some (stringifyPayload (some [85, 65, 61, 61]) none)⟩
    (.vNum 0) 100 200 (by decide) (by decide) (by decide) (by decide) (by decide)
    rfl rfl rfl

end EncStore
